import Mathlib

/-!
# XShaderCompiler: scoped symbol table, overload buckets, AST type catalog, code writer
and reports

A shallow embedding of `src/Compiler/SymbolTable.h`, of the enumerations of
`src/Compiler/AST/ASTEnums.h` and of the states declared in `src/CodeWriter.h`,
`inc/Xsc/Report.h` and `src/ReportHandler.h`, with the properties stated about them.

Conventions of the embedding:

* `SymbolType` is pointer-like in the source (`AST*`, `std::shared_ptr`): it is tested
  for truth (`entry.symbol && ...`) and `Fetch` returns `nullptr` when nothing is found.
  A payload is therefore an `Option α`, `none` standing for `nullptr`.
* `std::map<std::string, std::stack<Symbol>>` is a function from identifiers to optional
  stacks (`none`: no entry); a `std::stack` is a list whose head is the top.
* `std::stack<std::vector<std::string>>` is a list of name lists, head first; `push_back`
  appends at the end of a name list.
* A thrown `std::runtime_error` is recorded as the `error` text of the result, together
  with the table as the throwing call left it.
* The override callback is a pure function; the arguments it was invoked with are
  recorded in `calls`.
-/

namespace Xsc

/-! ## SymbolTable (src/Compiler/SymbolTable.h) -/

/-- Binding of an identifier (`struct Symbol`): payload and the scope level it was
registered at. -/
structure Symbol (α : Type) where
  symbol : Option α
  scopeLevel : Nat
  deriving DecidableEq

/-- State of a `SymbolTable<SymbolType>`: the members `symTable_` and `scopeStack_`. -/
structure SymbolTable (α : Type) where
  symTable_ : String → Option (List (Symbol α))
  scopeStack_ : List (List String)

namespace SymbolTable

variable {α : Type}

/-- Override callback `OnOverrideProc`; `none` is the empty `std::function`
(the default argument `nullptr`). -/
abbrev OnOverrideProc (α : Type) := Option (Option α → Bool)

/-- The method `ScopeLevel()`: `scopeStack_.size()`. -/
def ScopeLevel (t : SymbolTable α) : Nat :=
  t.scopeStack_.length

/-- The method `OpenScope()`: `scopeStack_.push({})`. -/
def OpenScope (t : SymbolTable α) : SymbolTable α :=
  { t with scopeStack_ := [] :: t.scopeStack_ }

/-- The constructor `SymbolTable()`: empty members, then `OpenScope()`. -/
def new : SymbolTable α :=
  OpenScope { symTable_ := fun _ => none, scopeStack_ := [] }

/-- Body of the loop of `CloseScope` for one identifier of the closed scope: when the
identifier has an entry, pop its stack and erase the entry once the stack is empty.
(Popping an empty `std::stack` is undefined in the source; the list model leaves it
empty, and the entry is erased.) -/
def closeIdent (m : String → Option (List (Symbol α))) (ident : String) :
    String → Option (List (Symbol α)) :=
  match m ident with
  | none => m
  | some s =>
    if s.tail.isEmpty then Function.update m ident none
    else Function.update m ident (some s.tail)

/-- The method `CloseScope()`: nothing when no scope is open; otherwise the loop runs
over the names of the top scope, in order, and the scope is popped. -/
def CloseScope (t : SymbolTable α) : SymbolTable α :=
  match t.scopeStack_ with
  | [] => t
  | top :: rest => { symTable_ := top.foldl closeIdent t.symTable_, scopeStack_ := rest }

/-- Outcome of a `Register` call: the table afterwards, the text of the thrown
`std::runtime_error` if any, and the arguments the override callback was invoked with. -/
structure RegisterResult (α : Type) where
  table : SymbolTable α
  error : Option String
  calls : List (Option α)

/-- The last two statements of `Register`:
`symTable_[ident].push({ symbol, ScopeLevel() }); scopeStack_.top().push_back(ident);`
(`operator[]` creates an empty stack when there is no entry). -/
def registerNew (t : SymbolTable α) (ident : String) (symbol : Option α) : SymbolTable α :=
  { symTable_ :=
      Function.update t.symTable_ ident
        (some ({ symbol := symbol, scopeLevel := ScopeLevel t } :: (t.symTable_ ident).getD [])),
    scopeStack_ :=
      match t.scopeStack_ with
      | [] => []
      | top :: rest => (top ++ [ident]) :: rest }

/-- Text of the error thrown for a duplicate declaration. -/
def alreadyDeclared (ident : String) : String :=
  "identifier '" ++ ident ++ "' already declared in this scope"

/-- The assignment `entry.symbol = symbol` on the top binding `entry` of `ident`,
`below` being the rest of its stack. -/
def overrideTop (t : SymbolTable α) (ident : String) (symbol : Option α)
    (entry : Symbol α) (below : List (Symbol α)) : SymbolTable α :=
  { symTable_ :=
      Function.update t.symTable_ ident
        (some ({ symbol := symbol, scopeLevel := entry.scopeLevel } :: below)),
    scopeStack_ := t.scopeStack_ }

/-- The method `Register(ident, symbol, overrideProc)`: it throws when no scope is open,
ignores an empty identifier, lets the callback decide when the top binding of the
identifier is non-null and of the current scope level, and otherwise pushes a new
binding and records the identifier in the current scope. -/
def Register (t : SymbolTable α) (ident : String) (symbol : Option α)
    (overrideProc : OnOverrideProc α) : RegisterResult α :=
  if t.scopeStack_.isEmpty then
    { table := t, error := some "no active scope to register symbol", calls := [] }
  else if ident = "" then
    { table := t, error := none, calls := [] }
  else
    match t.symTable_ ident with
    | some (entry :: below) =>
      if entry.symbol.isSome && entry.scopeLevel == ScopeLevel t then
        match overrideProc with
        | some proc =>
          if proc entry.symbol then
            { table := overrideTop t ident symbol entry below,
              error := none, calls := [entry.symbol] }
          else
            { table := t, error := some (alreadyDeclared ident), calls := [entry.symbol] }
        | none => { table := t, error := some (alreadyDeclared ident), calls := [] }
      else
        { table := registerNew t ident symbol, error := none, calls := [] }
    | _ => { table := registerNew t ident symbol, error := none, calls := [] }

/-- The method `Fetch(ident)`: payload of the top binding, `nullptr` when there is none. -/
def Fetch (t : SymbolTable α) (ident : String) : Option α :=
  match t.symTable_ ident with
  | some (entry :: _) => entry.symbol
  | _ => none

/-- One call of the public interface that changes the table. -/
inductive Op (α : Type) where
  | openScope : Op α
  | closeScope : Op α
  | register (ident : String) (symbol : Option α) (overrideProc : OnOverrideProc α) : Op α

/-- Effect of one call on the table; a throwing `Register` is caught by the caller and
leaves the table as the call left it. -/
def step (t : SymbolTable α) : Op α → SymbolTable α
  | .openScope => OpenScope t
  | .closeScope => CloseScope t
  | .register ident symbol overrideProc => (Register t ident symbol overrideProc).table

/-- Effect of a sequence of calls, first call first. -/
def run (ops : List (Op α)) (t : SymbolTable α) : SymbolTable α :=
  ops.foldl step t

/-- Table states that calls of the public interface produce from a new table. -/
inductive Reachable : SymbolTable α → Prop where
  | new : Reachable new
  | step (t : SymbolTable α) (op : Op α) : Reachable t → Reachable (step t op)

/-- Scan of a call sequence that starts `depth` scopes inside the scopes it opened
itself: `CloseScope` and `Register` occur only inside such a scope, and at the end
every opened scope is closed again. -/
def balancedFrom : Nat → List (Op α) → Bool
  | depth, [] => depth == 0
  | depth, .openScope :: ops => balancedFrom (depth + 1) ops
  | 0, .closeScope :: _ => false
  | depth + 1, .closeScope :: ops => balancedFrom depth ops
  | 0, .register _ _ _ :: _ => false
  | depth + 1, .register _ _ _ :: ops => balancedFrom (depth + 1) ops

/-- A balanced call sequence: scopes are opened, `Register` is called only inside the
newly opened scopes, and the opened scopes are closed again. -/
def balanced (ops : List (Op α)) : Bool :=
  balancedFrom 0 ops

/-- The call sequence of `N` nested scopes: scope `k` is opened, the `Register` calls
`pre k` are made in it, the deeper scopes are opened and closed, the `Register` calls
`post k` are made, and scope `k` is closed. -/
def nested (pre post : Nat → List (String × Option α × OnOverrideProc α)) :
    Nat → Nat → List (Op α)
  | _, 0 => []
  | k, n + 1 =>
    Op.openScope :: ((pre k).map fun r => Op.register r.1 r.2.1 r.2.2)
      ++ nested pre post (k + 1) n
      ++ ((post k).map fun r => Op.register r.1 r.2.1 r.2.2) ++ [Op.closeScope]

/-- Scan of a call sequence made while a scope is open, `depth` scopes inside the
scopes it opened itself: `Register` may be called in the open scope and in the scopes
the sequence opens, `CloseScope` closes only scopes the sequence opened, and at the end
all of these are closed, so that the sequence ends in the scope it started in. -/
def inScopeFrom : Nat → List (Op α) → Bool
  | depth, [] => depth == 0
  | depth, .openScope :: ops => inScopeFrom (depth + 1) ops
  | 0, .closeScope :: _ => false
  | depth + 1, .closeScope :: ops => inScopeFrom depth ops
  | depth, .register _ _ _ :: ops => inScopeFrom depth ops

/-- The method `CloseScope()` called `n` times. -/
def closeN : Nat → SymbolTable α → SymbolTable α
  | 0, t => t
  | n + 1, t => closeN n (CloseScope t)

/-- Effect of one pass of the loop of `CloseScope` on the entry of its identifier. -/
def pop1 : Option (List (Symbol α)) → Option (List (Symbol α))
  | none => none
  | some s => if s.tail.isEmpty then none else some s.tail

/-- Effect of `k` passes of the loop of `CloseScope` on the entry of their identifier. -/
def popN : Nat → Option (List (Symbol α)) → Option (List (Symbol α))
  | 0, e => e
  | k + 1, e => popN k (pop1 e)

/-- The binding stack of an identifier, empty when it has no entry. -/
def stackOf (t : SymbolTable α) (ident : String) : List (Symbol α) :=
  (t.symTable_ ident).getD []

/-- Scope levels, top first, that the name lists of the open scopes prescribe for the
binding stack of `ident`: one binding per occurrence in a name list, at the level of
that list. -/
def levelsOf : List (List String) → String → List Nat
  | [], _ => []
  | names :: rest, ident =>
    List.replicate (names.count ident) (rest.length + 1) ++ levelsOf rest ident

/-- Representation invariant of the table: no entry holds an empty stack, and the
levels recorded in each binding stack are the ones the name lists prescribe. -/
structure Inv (t : SymbolTable α) : Prop where
  noEmpty : ∀ ident, t.symTable_ ident ≠ some []
  levels : ∀ ident, (stackOf t ident).map Symbol.scopeLevel = levelsOf t.scopeStack_ ident

end SymbolTable

/-! ## Failures -/

/-- The two kinds of failure of the interfaces: a thrown `std::invalid_argument`, and a
thrown `std::runtime_error` with its text. -/
inductive Failure where
  | invalidArgument : Failure
  | runtimeError (what : String) : Failure
  deriving DecidableEq

/-! ## Operator enumerations (src/Compiler/AST/ASTEnums.h) -/

/-- Assignment operators (`enum class AssignOp`). -/
inductive AssignOp where
  | Undefined | Set | Add | Sub | Mul | Div | Mod | LShift | RShift | Or | And | Xor
  deriving DecidableEq

/-- Binary operators (`enum class BinaryOp`). -/
inductive BinaryOp where
  | Undefined | LogicalAnd | LogicalOr | Or | Xor | And | LShift | RShift | Add | Sub | Mul
  | Div | Mod | Equal | NotEqual | Less | Greater | LessEqual | GreaterEqual
  deriving DecidableEq

/-- Unary operators (`enum class UnaryOp`). -/
inductive UnaryOp where
  | Undefined | LogicalNot | Not | Nop | Negate | Inc | Dec
  deriving DecidableEq

/-- Control transfers (`enum class CtrlTransfer`). -/
inductive CtrlTransfer where
  | Undefined | Break | Continue | Discard
  deriving DecidableEq

/-- Modelled from the spec: the body of `AssignOpToString`, which the header only
declares. The texts are the ones the specification lists with the enumerators (and the
header's comment, in the order of the enumerators); the text for `Undefined` is not
given and is taken to be empty. -/
def AssignOpToString : AssignOp → String
  | .Undefined => ""
  | .Set => "="
  | .Add => "+="
  | .Sub => "-="
  | .Mul => "*="
  | .Div => "/="
  | .Mod => "%="
  | .LShift => "<<="
  | .RShift => ">>="
  | .Or => "|="
  | .And => "&="
  | .Xor => "^="

/-- Modelled from the spec: the body of `StringToAssignOp`, which the header only
declares: the partial inverse of the texts, failing with an invalid-argument error for
text that is not recognised. -/
def StringToAssignOp (s : String) : Except Failure AssignOp :=
  if s = "=" then .ok .Set
  else if s = "+=" then .ok .Add
  else if s = "-=" then .ok .Sub
  else if s = "*=" then .ok .Mul
  else if s = "/=" then .ok .Div
  else if s = "%=" then .ok .Mod
  else if s = "<<=" then .ok .LShift
  else if s = ">>=" then .ok .RShift
  else if s = "|=" then .ok .Or
  else if s = "&=" then .ok .And
  else if s = "^=" then .ok .Xor
  else .error .invalidArgument

/-- Modelled from the spec: the body of `BinaryOpToString`, which the header only
declares. The texts are the ones of the specification and of the header's comment
`&&, ||, |, ^, &, <<, >>, +, -, *, /, %, ==, !=, <, >, <=, >=`, in the order of the
enumerators; the text for `Undefined` is not given and is taken to be empty. -/
def BinaryOpToString : BinaryOp → String
  | .Undefined => ""
  | .LogicalAnd => "&&"
  | .LogicalOr => "||"
  | .Or => "|"
  | .Xor => "^"
  | .And => "&"
  | .LShift => "<<"
  | .RShift => ">>"
  | .Add => "+"
  | .Sub => "-"
  | .Mul => "*"
  | .Div => "/"
  | .Mod => "%"
  | .Equal => "=="
  | .NotEqual => "!="
  | .Less => "<"
  | .Greater => ">"
  | .LessEqual => "<="
  | .GreaterEqual => ">="

/-- Modelled from the spec: the body of `StringToBinaryOp`, which the header only
declares: the partial inverse of the texts, failing with an invalid-argument error for
text that is not recognised. -/
def StringToBinaryOp (s : String) : Except Failure BinaryOp :=
  if s = "&&" then .ok .LogicalAnd
  else if s = "||" then .ok .LogicalOr
  else if s = "|" then .ok .Or
  else if s = "^" then .ok .Xor
  else if s = "&" then .ok .And
  else if s = "<<" then .ok .LShift
  else if s = ">>" then .ok .RShift
  else if s = "+" then .ok .Add
  else if s = "-" then .ok .Sub
  else if s = "*" then .ok .Mul
  else if s = "/" then .ok .Div
  else if s = "%" then .ok .Mod
  else if s = "==" then .ok .Equal
  else if s = "!=" then .ok .NotEqual
  else if s = "<" then .ok .Less
  else if s = ">" then .ok .Greater
  else if s = "<=" then .ok .LessEqual
  else if s = ">=" then .ok .GreaterEqual
  else .error .invalidArgument

/-- Modelled from the spec: the body of `UnaryOpToString`, which the header only
declares. The texts are the ones of the specification and of the header's comments
(`!`, `~`, `+`, `-`, `++`, `--`); the text for `Undefined` is not given and is taken to
be empty. -/
def UnaryOpToString : UnaryOp → String
  | .Undefined => ""
  | .LogicalNot => "!"
  | .Not => "~"
  | .Nop => "+"
  | .Negate => "-"
  | .Inc => "++"
  | .Dec => "--"

/-- Modelled from the spec: the body of `StringToUnaryOp`, which the header only
declares: the partial inverse of the texts, failing with an invalid-argument error for
text that is not recognised. -/
def StringToUnaryOp (s : String) : Except Failure UnaryOp :=
  if s = "!" then .ok .LogicalNot
  else if s = "~" then .ok .Not
  else if s = "+" then .ok .Nop
  else if s = "-" then .ok .Negate
  else if s = "++" then .ok .Inc
  else if s = "--" then .ok .Dec
  else .error .invalidArgument

/-- Modelled from the spec: the body of `CtrlTransformToString`, which the header only
declares. The texts are the keywords of the header's comment (`break, continue,
discard`); the text for `Undefined` is not given and is taken to be empty. -/
def CtrlTransformToString : CtrlTransfer → String
  | .Undefined => ""
  | .Break => "break"
  | .Continue => "continue"
  | .Discard => "discard"

/-- Modelled from the spec: the body of `StringToCtrlTransfer`, which the header only
declares: the partial inverse of the texts, failing with an invalid-argument error for
text that is not recognised. -/
def StringToCtrlTransfer (s : String) : Except Failure CtrlTransfer :=
  if s = "break" then .ok .Break
  else if s = "continue" then .ok .Continue
  else if s = "discard" then .ok .Discard
  else .error .invalidArgument

/-! ## Data types (src/Compiler/AST/ASTEnums.h) -/

/-- Base data types (`enum class DataType`), in the order of the source. -/
inductive DataType where
  | Undefined
  | String
  | Bool
  | Int
  | UInt
  | Half
  | Float
  | Double
  | Bool2
  | Bool3
  | Bool4
  | Int2
  | Int3
  | Int4
  | UInt2
  | UInt3
  | UInt4
  | Half2
  | Half3
  | Half4
  | Float2
  | Float3
  | Float4
  | Double2
  | Double3
  | Double4
  | Bool2x2
  | Bool2x3
  | Bool2x4
  | Bool3x2
  | Bool3x3
  | Bool3x4
  | Bool4x2
  | Bool4x3
  | Bool4x4
  | Int2x2
  | Int2x3
  | Int2x4
  | Int3x2
  | Int3x3
  | Int3x4
  | Int4x2
  | Int4x3
  | Int4x4
  | UInt2x2
  | UInt2x3
  | UInt2x4
  | UInt3x2
  | UInt3x3
  | UInt3x4
  | UInt4x2
  | UInt4x3
  | UInt4x4
  | Half2x2
  | Half2x3
  | Half2x4
  | Half3x2
  | Half3x3
  | Half3x4
  | Half4x2
  | Half4x3
  | Half4x4
  | Float2x2
  | Float2x3
  | Float2x4
  | Float3x2
  | Float3x3
  | Float3x4
  | Float4x2
  | Float4x3
  | Float4x4
  | Double2x2
  | Double2x3
  | Double2x4
  | Double3x2
  | Double3x3
  | Double3x4
  | Double4x2
  | Double4x3
  | Double4x4
  deriving DecidableEq

/-- Modelled from the spec: the body of `IsScalarType`, which the header only declares:
the enumerators the source lists under "Scalar types". -/
def IsScalarType : DataType → Bool
  | .Bool | .Int | .UInt | .Half | .Float | .Double => true
  | _ => false

/-- Modelled from the spec: the body of `IsVectorType`, which the header only declares:
the enumerators the source lists under "Vector types". -/
def IsVectorType : DataType → Bool
  | .Bool2 | .Bool3 | .Bool4 | .Int2 | .Int3 | .Int4 | .UInt2 | .UInt3 | .UInt4 | .Half2
  | .Half3 | .Half4 | .Float2 | .Float3 | .Float4 | .Double2 | .Double3 | .Double4 => true
  | _ => false

/-- Modelled from the spec: the body of `IsMatrixType`, which the header only declares:
the enumerators the source lists under "Matrix types". -/
def IsMatrixType : DataType → Bool
  | .Bool2x2 | .Bool2x3 | .Bool2x4 | .Bool3x2 | .Bool3x3 | .Bool3x4 | .Bool4x2 | .Bool4x3
  | .Bool4x4 | .Int2x2 | .Int2x3 | .Int2x4 | .Int3x2 | .Int3x3 | .Int3x4 | .Int4x2 | .Int4x3
  | .Int4x4 | .UInt2x2 | .UInt2x3 | .UInt2x4 | .UInt3x2 | .UInt3x3 | .UInt3x4 | .UInt4x2
  | .UInt4x3 | .UInt4x4 | .Half2x2 | .Half2x3 | .Half2x4 | .Half3x2 | .Half3x3 | .Half3x4
  | .Half4x2 | .Half4x3 | .Half4x4 | .Float2x2 | .Float2x3 | .Float2x4 | .Float3x2 | .Float3x3
  | .Float3x4 | .Float4x2 | .Float4x3 | .Float4x4 | .Double2x2 | .Double2x3 | .Double2x4
  | .Double3x2 | .Double3x3 | .Double3x4 | .Double4x2 | .Double4x3 | .Double4x4 => true
  | _ => false

/-- Modelled from the spec: the body of `VectorTypeDim`, which the header only declares:
1 for scalars, the dimension of a vector, 0 for matrices (and, the specification being
silent, for `Undefined` and `String`). -/
def VectorTypeDim : DataType → Int
  | .Bool | .Int | .UInt | .Half | .Float | .Double => 1
  | .Bool2 | .Int2 | .UInt2 | .Half2 | .Float2 | .Double2 => 2
  | .Bool3 | .Int3 | .UInt3 | .Half3 | .Float3 | .Double3 => 3
  | .Bool4 | .Int4 | .UInt4 | .Half4 | .Float4 | .Double4 => 4
  | _ => 0

/-- Modelled from the spec: the body of `BaseDataType`, which the header only declares:
the scalar element type of a scalar, vector or matrix, `Undefined` where there is none. -/
def BaseDataType : DataType → DataType
  | .Bool | .Bool2 | .Bool3 | .Bool4 | .Bool2x2 | .Bool2x3 | .Bool2x4 | .Bool3x2 | .Bool3x3
  | .Bool3x4 | .Bool4x2 | .Bool4x3 | .Bool4x4 => .Bool
  | .Int | .Int2 | .Int3 | .Int4 | .Int2x2 | .Int2x3 | .Int2x4 | .Int3x2 | .Int3x3 | .Int3x4
  | .Int4x2 | .Int4x3 | .Int4x4 => .Int
  | .UInt | .UInt2 | .UInt3 | .UInt4 | .UInt2x2 | .UInt2x3 | .UInt2x4 | .UInt3x2 | .UInt3x3
  | .UInt3x4 | .UInt4x2 | .UInt4x3 | .UInt4x4 => .UInt
  | .Half | .Half2 | .Half3 | .Half4 | .Half2x2 | .Half2x3 | .Half2x4 | .Half3x2 | .Half3x3
  | .Half3x4 | .Half4x2 | .Half4x3 | .Half4x4 => .Half
  | .Float | .Float2 | .Float3 | .Float4 | .Float2x2 | .Float2x3 | .Float2x4 | .Float3x2
  | .Float3x3 | .Float3x4 | .Float4x2 | .Float4x3 | .Float4x4 => .Float
  | .Double | .Double2 | .Double3 | .Double4 | .Double2x2 | .Double2x3 | .Double2x4
  | .Double3x2 | .Double3x3 | .Double3x4 | .Double4x2 | .Double4x3 | .Double4x4 => .Double
  | _ => .Undefined

/-- Modelled from the spec: the body of `VectorDataType`, which the header only
declares: the vector type of a scalar type and a size from 2 to 4, the scalar itself
for size 1, and (the specification being silent) `Undefined` for anything else. -/
def VectorDataType (baseDataType : DataType) (vectorSize : Int) : DataType :=
  match baseDataType with
  | .Bool =>
    if vectorSize = 1 then .Bool else if vectorSize = 2 then .Bool2
    else if vectorSize = 3 then .Bool3 else if vectorSize = 4 then .Bool4 else .Undefined
  | .Int =>
    if vectorSize = 1 then .Int else if vectorSize = 2 then .Int2
    else if vectorSize = 3 then .Int3 else if vectorSize = 4 then .Int4 else .Undefined
  | .UInt =>
    if vectorSize = 1 then .UInt else if vectorSize = 2 then .UInt2
    else if vectorSize = 3 then .UInt3 else if vectorSize = 4 then .UInt4 else .Undefined
  | .Half =>
    if vectorSize = 1 then .Half else if vectorSize = 2 then .Half2
    else if vectorSize = 3 then .Half3 else if vectorSize = 4 then .Half4 else .Undefined
  | .Float =>
    if vectorSize = 1 then .Float else if vectorSize = 2 then .Float2
    else if vectorSize = 3 then .Float3 else if vectorSize = 4 then .Float4 else .Undefined
  | .Double =>
    if vectorSize = 1 then .Double else if vectorSize = 2 then .Double2
    else if vectorSize = 3 then .Double3 else if vectorSize = 4 then .Double4 else .Undefined
  | _ => .Undefined

/-- Modelled from the spec: the swizzle families `xyzw`, `rgba`, `stpq` used by
`VectorSubscriptDataType`, component letters in the order of the component index. -/
def subscriptFamilies : List (List Char) :=
  ["xyzw".toList, "rgba".toList, "stpq".toList]

/-- Modelled from the spec: validity of a subscript for one family within
`VectorSubscriptDataType`: all its characters are among the first `vectorSize` letters
of the family. -/
def IsValidSubscript (family : List Char) (vectorSize : Nat) (subscript : String) : Bool :=
  subscript.toList.all fun chr => (family.take vectorSize).contains chr

/-- Modelled from the spec: the body of `VectorSubscriptDataType`, which the header only
declares: the subscript has 1 to 4 letters, all of one family and within the dimension
of the data type; the result is the vector type of the base type with as many
components as the subscript has letters; otherwise an invalid-argument error. -/
def VectorSubscriptDataType (dataType : DataType) (subscript : String) :
    Except Failure DataType :=
  if subscript.length < 1 ∨ 4 < subscript.length then
    .error .invalidArgument
  else if subscriptFamilies.any fun family =>
      IsValidSubscript family (VectorTypeDim dataType).toNat subscript then
    .ok (VectorDataType (BaseDataType dataType) subscript.length)
  else
    .error .invalidArgument

/-- The swizzles the specification accepts for a data type: 1 to 4 letters, all of one
family, each with a component index below the vector dimension of the data type. -/
def ValidSwizzle (dataType : DataType) (subscript : String) : Prop :=
  1 ≤ subscript.length ∧ subscript.length ≤ 4 ∧
  ∃ family ∈ subscriptFamilies, ∀ chr ∈ subscript.toList,
    chr ∈ family ∧ (family.indexOf chr : Int) < VectorTypeDim dataType

instance (dataType : DataType) (subscript : String) :
    Decidable (ValidSwizzle dataType subscript) := by
  unfold ValidSwizzle
  infer_instance

/-- Modelled from the spec: implicit castability of one base-type denoter to another,
the body of `TypeDenoter::IsCastableTo` not being in the sources: a type to itself,
scalar to scalar, scalar to a vector or matrix of the same base type, vector to vector
of the same dimension. -/
def IsCastableTo (source target : DataType) : Bool :=
  source == target
    || (IsScalarType source && IsScalarType target)
    || (IsScalarType source && (IsVectorType target || IsMatrixType target)
        && BaseDataType target == source)
    || (IsVectorType source && IsVectorType target
        && VectorTypeDim source == VectorTypeDim target)

/-! ## ASTSymbolOverload (src/Compiler/SymbolTable.h) -/

/-- Modelled from the spec: the AST nodes an overload bucket refers to, `AST.h` not being
in the sources: a variable-like declaration (variable, texture, sampler, buffer), a
type-like declaration (struct, alias), or a function declaration with the type denoters
of its parameters, in order. `node` tells apart the nodes of one kind. -/
inductive AST (τ : Type) where
  | VarLike (node : Nat) : AST τ
  | TypeLike (node : Nat) : AST τ
  | FunctionDecl (node : Nat) (parameters : List τ) : AST τ
  deriving DecidableEq

/-- State of an `ASTSymbolOverload`: the members `ident_` and `refs_`. -/
structure ASTSymbolOverload (τ : Type) where
  ident_ : String
  refs_ : List (AST τ)

namespace ASTSymbolOverload

variable {τ : Type}

/-- The constructor `ASTSymbolOverload(ident)`: no references. -/
def new (ident : String) : ASTSymbolOverload τ :=
  { ident_ := ident, refs_ := [] }

/-- Modelled from the spec: whether an existing reference lets a function with the given
parameter type denoters join the overload set: it is a function declaration with
another signature. -/
def admitsFunction [DecidableEq τ] (parameters : List τ) : AST τ → Bool
  | .FunctionDecl _ existing => decide (existing ≠ parameters)
  | _ => false

/-- Modelled from the spec: the body of `AddSymbolRef`, which the header only declares.
A variable-like or type-like node is accepted only into an empty bucket; a function is
accepted when every existing reference is a function with another signature. The result
is the returned flag and the bucket afterwards. -/
def AddSymbolRef [DecidableEq τ] (o : ASTSymbolOverload τ) (ast : AST τ) :
    Bool × ASTSymbolOverload τ :=
  match ast with
  | .FunctionDecl _ parameters =>
    if o.refs_.all (admitsFunction parameters) then (true, { o with refs_ := o.refs_ ++ [ast] })
    else (false, o)
  | _ =>
    if o.refs_.isEmpty then (true, { o with refs_ := o.refs_ ++ [ast] })
    else (false, o)

/-- The bucket after a sequence of `AddSymbolRef` calls, whatever they returned. -/
def addAll [DecidableEq τ] (o : ASTSymbolOverload τ) (asts : List (AST τ)) :
    ASTSymbolOverload τ :=
  asts.foldl (fun b ast => (AddSymbolRef b ast).2) o

/-- Modelled from the spec: the body of `ValidateNumArgsForFunctionDecl` for one
reference: a function declaration whose parameter count is the argument count. -/
def hasNumArgs (numArgs : Nat) : AST τ → Bool
  | .FunctionDecl _ parameters => parameters.length == numArgs
  | _ => false

/-- Modelled from the spec: `MatchFunctionDeclWithArgs` on the parameters of a
declaration, which the header only declares: position by position, the argument type
denoter equals the parameter type denoter, or, with `implicitTypeConversion`, is
castable to it. -/
def MatchFunctionDeclWithArgs [DecidableEq τ] (castable : τ → τ → Bool) :
    List τ → List τ → Bool → Bool
  | [], [], _ => true
  | parameter :: parameters, argument :: typeDens, implicitTypeConversion =>
    (if implicitTypeConversion then castable argument parameter
      else decide (argument = parameter))
    && MatchFunctionDeclWithArgs castable parameters typeDens implicitTypeConversion
  | _, _, _ => false

/-- Modelled from the spec: `MatchFunctionDeclWithArgs` on a reference of the bucket. -/
def matchesArgs [DecidableEq τ] (castable : τ → τ → Bool) (typeDens : List τ)
    (implicitTypeConversion : Bool) : AST τ → Bool
  | .FunctionDecl _ parameters =>
    MatchFunctionDeclWithArgs castable parameters typeDens implicitTypeConversion
  | _ => false

/-- Modelled from the spec: the last step of `FetchFunctionDecl`: the only candidate of
the tier, or the "ambiguous call" failure when there are several. -/
def uniqueCandidate : List (AST τ) → Except Failure (AST τ)
  | [funcDecl] => .ok funcDecl
  | _ => .error (.runtimeError "ambiguous call")

/-- Modelled from the spec: the candidates of `FetchFunctionDecl`: the functions with
as many parameters as there are arguments. -/
def candidates (o : ASTSymbolOverload τ) (numArgs : Nat) : List (AST τ) :=
  o.refs_.filter (hasNumArgs numArgs)

/-- Modelled from the spec: one tier of `FetchFunctionDecl`: the candidates that match
the arguments exactly (`implicitTypeConversion` false) or by implicit conversion. -/
def tier [DecidableEq τ] (castable : τ → τ → Bool) (o : ASTSymbolOverload τ)
    (argTypeDenoters : List τ) (implicitTypeConversion : Bool) : List (AST τ) :=
  (candidates o argTypeDenoters.length).filter
    (matchesArgs castable argTypeDenoters implicitTypeConversion)

/-- Modelled from the spec: the body of `FetchFunctionDecl`, which the header only
declares. The candidates are the functions with as many parameters as there are
arguments; if some match exactly, the exact ones must be a single one; otherwise the
convertible ones must be a single one; with no candidate of either tier the failure is
"no matching function". `castable` is the implicit-conversion test of type denoters. -/
def FetchFunctionDecl [DecidableEq τ] (castable : τ → τ → Bool) (o : ASTSymbolOverload τ)
    (argTypeDenoters : List τ) : Except Failure (AST τ) :=
  if (tier castable o argTypeDenoters false).isEmpty then
    if (tier castable o argTypeDenoters true).isEmpty then
      .error (.runtimeError "no matching function")
    else uniqueCandidate (tier castable o argTypeDenoters true)
  else uniqueCandidate (tier castable o argTypeDenoters false)

/-- A reference is an exact candidate for the arguments: a function whose parameter type
denoters are the argument type denoters. -/
def IsExact (args : List τ) : AST τ → Prop
  | .FunctionDecl _ parameters => parameters = args
  | _ => False

/-- A reference is a convertible candidate for the arguments: a function with as many
parameters as arguments, every argument castable to its parameter. -/
def IsConvertible (castable : τ → τ → Bool) (args : List τ) : AST τ → Prop
  | .FunctionDecl _ parameters =>
    List.Forall₂ (fun argument parameter => castable argument parameter = true) args parameters
  | _ => False

/-- The reference `f` is the only one of the list with the property `P`. -/
def OnlyOne (P : AST τ → Prop) (refs : List (AST τ)) (f : AST τ) : Prop :=
  ∃ before after, refs = before ++ f :: after ∧ P f ∧
    (∀ r ∈ before, ¬ P r) ∧ (∀ r ∈ after, ¬ P r)

/-- At least two references of the list have the property `P`. -/
def Several (P : AST τ → Prop) (refs : List (AST τ)) : Prop :=
  ∃ before f between g after, refs = before ++ f :: (between ++ g :: after) ∧ P f ∧ P g

/-- A reference is variable-like or type-like. -/
def IsVarOrType : AST τ → Prop
  | .FunctionDecl _ _ => False
  | _ => True

/-- The reference list is a single variable-like node, a single type-like node, or
function declarations only, with pairwise distinct signatures (the empty list being the
bucket before the first reference). -/
def WellFormedRefs (refs : List (AST τ)) : Prop :=
  (∃ node, refs = [.VarLike node]) ∨ (∃ node, refs = [.TypeLike node]) ∨
  ((∀ ast ∈ refs, ∃ node parameters, ast = .FunctionDecl node parameters) ∧
    refs.Pairwise fun a b =>
      ∀ n₁ p₁ n₂ p₂, a = .FunctionDecl n₁ p₁ → b = .FunctionDecl n₂ p₂ → p₁ ≠ p₂)

end ASTSymbolOverload

namespace SymbolTable

/-- The name list of the open scope of level `level` (1 is the global scope, the length
of the scope stack the current one); empty when there is no such scope. -/
def namesOfLevel (scopeStack : List (List String)) (level : Nat) : List String :=
  (scopeStack.reverse[level - 1]?).getD []

end SymbolTable

/-! ## CodeWriter (src/CodeWriter.h) -/

/-- Formatting options (`struct CodeWriter::Options`); both are true by default. -/
structure CodeWriter.Options where
  enableNewLine : Bool
  enableTabs : Bool
  deriving DecidableEq

/-- State of a `CodeWriter`: the members `indentTab_`, `indent_` and `optionsStack_`
(head first), and in `stream` the text written so far to the stream that `stream_`
points to. -/
structure CodeWriter where
  stream : String
  indentTab_ : String
  indent_ : String
  optionsStack_ : List CodeWriter.Options
  deriving DecidableEq

namespace CodeWriter

/-- The default constructor `Options()`: both options true. -/
def Options.default : Options :=
  { enableNewLine := true, enableTabs := true }

/-- Modelled from the spec: the constructor `CodeWriter(indentTab)`, which the header
only declares, with a stream bound: nothing written, no indentation, and the options
stack holding its initial frame, both options true. -/
def new (indentTab : String) : CodeWriter :=
  { stream := "", indentTab_ := indentTab, indent_ := "", optionsStack_ := [Options.default] }

/-- Modelled from the spec: the body of `PushIndent`, which the header only declares:
one unit of the indent string is added to the current indent. -/
def PushIndent (w : CodeWriter) : CodeWriter :=
  { stream := w.stream, indentTab_ := w.indentTab_, indent_ := w.indent_ ++ w.indentTab_,
    optionsStack_ := w.optionsStack_ }

/-- Modelled from the spec: the body of `PopIndent`, which the header only declares: one
unit of the indent string is removed from the end of the current indent; with no
indentation left the call is a programmer error (`none`: the runtime error, whose text
the specification does not give). -/
def PopIndent (w : CodeWriter) : Option CodeWriter :=
  if w.indent_ = "" then none
  else some
    { stream := w.stream, indentTab_ := w.indentTab_,
      indent_ := ⟨w.indent_.data.take (w.indent_.data.length - w.indentTab_.data.length)⟩,
      optionsStack_ := w.optionsStack_ }

/-- Modelled from the spec: the body of `PushOptions`, which the header only declares:
a frame is added on top of the options stack. -/
def PushOptions (w : CodeWriter) (options : Options) : CodeWriter :=
  { stream := w.stream, indentTab_ := w.indentTab_, indent_ := w.indent_,
    optionsStack_ := options :: w.optionsStack_ }

/-- Modelled from the spec: the body of `PopOptions`, which the header only declares:
the top frame is removed; on an empty stack the call is a programmer error (`none`: the
runtime error, whose text the specification does not give). -/
def PopOptions (w : CodeWriter) : Option CodeWriter :=
  match w.optionsStack_ with
  | [] => none
  | _ :: rest =>
    some { stream := w.stream, indentTab_ := w.indentTab_, indent_ := w.indent_,
           optionsStack_ := rest }

/-- Modelled from the spec: the body of `CurrentOptions`, which the header only
declares: the top frame of the options stack (and, the specification being silent,
the default options when the stack is empty). -/
def CurrentOptions (w : CodeWriter) : Options :=
  match w.optionsStack_ with
  | [] => Options.default
  | options :: _ => options

/-- Modelled from the spec: the body of `Write`, which the header only declares: the
text is written verbatim. -/
def Write (w : CodeWriter) (text : String) : CodeWriter :=
  { stream := w.stream ++ text, indentTab_ := w.indentTab_, indent_ := w.indent_,
    optionsStack_ := w.optionsStack_ }

/-- Modelled from the spec: the body of `BeginLine`, which the header only declares: the
current indent is written, nothing when `enableTabs` is false. -/
def BeginLine (w : CodeWriter) : CodeWriter :=
  if (CurrentOptions w).enableTabs then Write w w.indent_ else w

/-- Modelled from the spec: the body of `EndLine`, which the header only declares: a
new-line character is written if and only if `enableNewLine` is true. -/
def EndLine (w : CodeWriter) : CodeWriter :=
  if (CurrentOptions w).enableNewLine then Write w "\n" else w

/-- Modelled from the spec: the body of `WriteLine`, which the header only declares:
`BeginLine(); Write(text); EndLine()`. -/
def WriteLine (w : CodeWriter) (text : String) : CodeWriter :=
  EndLine (Write (BeginLine w) text)

/-- One call of the interface of the writer. -/
inductive Call where
  | pushIndent : Call
  | popIndent : Call
  | pushOptions (options : Options) : Call
  | popOptions : Call
  | beginLine : Call
  | endLine : Call
  | write (text : String) : Call
  | writeLine (text : String) : Call
  deriving DecidableEq

/-- Effect of one call; `none` when the call fails. -/
def step (w : CodeWriter) : Call → Option CodeWriter
  | .pushIndent => some (PushIndent w)
  | .popIndent => PopIndent w
  | .pushOptions options => some (PushOptions w options)
  | .popOptions => PopOptions w
  | .beginLine => some (BeginLine w)
  | .endLine => some (EndLine w)
  | .write text => some (Write w text)
  | .writeLine text => some (WriteLine w text)

/-- Effect of a sequence of calls, first call first, up to the first failing call. -/
def run : List Call → CodeWriter → Option CodeWriter
  | [], w => some w
  | call :: calls, w =>
    match step w call with
    | none => none
    | some next => run calls next

/-- The calls that only write: `BeginLine`, `EndLine`, `Write`, `WriteLine`. -/
def Call.isOutput : Call → Bool
  | .beginLine => true
  | .endLine => true
  | .write _ => true
  | .writeLine _ => true
  | _ => false

/-- The text `u` repeated `k` times. -/
def repeatString (u : String) : Nat → String
  | 0 => ""
  | k + 1 => repeatString u k ++ u

/-- The writer with the text of its stream replaced. -/
def withStream (w : CodeWriter) (text : String) : CodeWriter :=
  { stream := text, indentTab_ := w.indentTab_, indent_ := w.indent_,
    optionsStack_ := w.optionsStack_ }

end CodeWriter

/-! ## Reports (inc/Xsc/Report.h, src/ReportHandler.h) -/

/-- Report types (`enum class Report::Types`). -/
inductive Report.Types where
  | Info | Warning | Error
  deriving DecidableEq

/-- State of a `Report`: the members `type_`, `message_`, `line_` and `marker_`. -/
structure Report where
  type_ : Report.Types
  message_ : String
  line_ : String
  marker_ : String
  deriving DecidableEq

/-- The method `HasLine()`: `!line_.empty()`. -/
def Report.HasLine (r : Report) : Bool :=
  !(r.line_ == "")

/-- Modelled from the spec: a source position, `SourcePosition.h` not being in the
sources: a one-based row and a one-based column. -/
structure SourcePosition where
  row : Nat
  column : Nat
  deriving DecidableEq

/-- Modelled from the spec: a source area, its declaration not being in the sources: the
half-open range from the position `first` to the position `last`, or the distinguished
value `ignore` (no location known). -/
inductive SourceArea where
  | ignore : SourceArea
  | range (first last : SourcePosition) : SourceArea
  deriving DecidableEq

/-- Modelled from the spec: a source code, its declaration not being in the sources: the
lines of the source text, new lines stripped, the first line being row 1. -/
structure SourceCode where
  lines : List String

/-- Modelled from the spec: the retrieval of the line of a row, `none` when the source
has no such row. -/
def SourceCode.Line (sourceCode : SourceCode) (row : Nat) : Option String :=
  if row = 0 then none else sourceCode.lines[row - 1]?

/-- State of a `ReportHandler`: the members `reportTypeName_` and `hasErrors_` (the log
is left out). -/
structure ReportHandler where
  reportTypeName_ : String
  hasErrors_ : Bool

namespace ReportHandler

/-- Modelled from the spec: the character of the marker under the character `chr` of
the line at the one-based column `column`, for the marked columns from `first` to
`last` (exclusive): `^` at the first marked column, `~` at the other marked columns,
and elsewhere a tab under a tab and a space under anything else. -/
def markerChar (column first last : Nat) (chr : Char) : Char :=
  if column = first then '^'
  else if first < column ∧ column < last then '~'
  else if chr = '\t' then '\t'
  else ' '

/-- Modelled from the spec: the marker characters under the characters of a line, the
first of them at column `column`. -/
def markerFrom (column first last : Nat) : List Char → List Char
  | [] => []
  | chr :: rest => markerChar column first last chr :: markerFrom (column + 1) first last rest

/-- Modelled from the spec: the marker of a line for the marked columns from `first` to
`last` (exclusive): a text of the length of the line. -/
def lineMarker (line : String) (first last : Nat) : String :=
  ⟨markerFrom 1 first last line.data⟩

/-- Modelled from the spec: the body of `MakeReport`, which the header only declares.
With a source and an area other than `ignore`, the report carries the line of the row
where the area begins and its marker for the columns of the area (up to the end of the
line when the area ends in another row, the specification being silent); otherwise, or
when the source has no such row, it carries no line. The message is the given one
behind the category name; `decorate` composes the two, the specification not giving the
layout. -/
def MakeReport (handler : ReportHandler) (decorate : String → String → String)
    (type : Report.Types) (msg : String) (sourceCode : Option SourceCode)
    (area : SourceArea) : Report :=
  match sourceCode, area with
  | some source, .range first last =>
    match source.Line first.row with
    | some line =>
      { type_ := type, message_ := decorate handler.reportTypeName_ msg, line_ := line,
        marker_ := lineMarker line first.column
          (if last.row = first.row then last.column else line.length + 1) }
    | none =>
      { type_ := type, message_ := decorate handler.reportTypeName_ msg, line_ := "",
        marker_ := "" }
  | _, _ =>
    { type_ := type, message_ := decorate handler.reportTypeName_ msg, line_ := "",
      marker_ := "" }

end ReportHandler

/-! ## Properties of the symbol table -/

namespace SymbolTable

variable {α : Type}

theorem closeIdent_apply (m : String → Option (List (Symbol α))) (a ident : String) :
    closeIdent m a ident = if ident = a then pop1 (m ident) else m ident := by
  unfold closeIdent
  by_cases h : ident = a
  · subst h
    cases hm : m ident with
    | none => simp [pop1, hm]
    | some s =>
      by_cases hs : s.tail.isEmpty = true <;> simp [pop1, hs]
  · cases hm : m a with
    | none => simp [h]
    | some s =>
      by_cases hs : s.tail.isEmpty = true <;> simp [hs, h, Function.update_noteq]

theorem popN_succ (k : Nat) (e : Option (List (Symbol α))) :
    popN (k + 1) e = popN k (pop1 e) := rfl

theorem foldl_closeIdent_apply (names : List String) (m : String → Option (List (Symbol α)))
    (ident : String) :
    names.foldl closeIdent m ident = popN (names.count ident) (m ident) := by
  induction names generalizing m with
  | nil => simp [popN]
  | cons a names ih =>
    rw [List.foldl_cons, ih, closeIdent_apply]
    by_cases h : ident = a
    · subst h
      simp [popN_succ]
    · have h2 : a ≠ ident := fun e => h e.symm
      simp [h, List.count_cons_of_ne h2]

theorem popN_none (k : Nat) : popN k (none : Option (List (Symbol α))) = none := by
  induction k with
  | zero => rfl
  | succ k ih => simpa [popN_succ, pop1] using ih

theorem popN_some (k : Nat) (s : List (Symbol α)) (hs : s ≠ []) :
    popN k (some s) = if k < s.length then some (s.drop k) else none := by
  induction k generalizing s with
  | zero =>
    have : 0 < s.length := List.length_pos.mpr hs
    simp [popN, this]
  | succ k ih =>
    cases s with
    | nil => exact absurd rfl hs
    | cons b s =>
      rw [popN_succ]
      cases s with
      | nil => simp [pop1, popN_none]
      | cons c s =>
        have : pop1 (some (b :: c :: s)) = some (c :: s) := by simp [pop1]
        rw [this, ih (c :: s) (by simp)]
        simp

theorem getD_pop1 (e : Option (List (Symbol α))) : (pop1 e).getD [] = (e.getD []).tail := by
  cases e with
  | none => rfl
  | some s =>
    by_cases hs : s.tail.isEmpty = true
    · have : s.tail = [] := List.isEmpty_iff.mp hs
      simp [pop1, hs, this]
    · simp [pop1, hs]

theorem getD_popN (k : Nat) (e : Option (List (Symbol α))) :
    (popN k e).getD [] = (e.getD []).drop k := by
  induction k generalizing e with
  | zero => simp [popN]
  | succ k ih => rw [popN_succ, ih, getD_pop1, List.drop_tail]

theorem popN_ne_some_nil (k : Nat) (e : Option (List (Symbol α))) (he : e ≠ some []) :
    popN k e ≠ some [] := by
  cases e with
  | none => simp [popN_none]
  | some s =>
    have hs : s ≠ [] := fun h => he (by rw [h])
    rw [popN_some k s hs]
    by_cases hk : k < s.length
    · simp [hk]
    · simp [hk]

theorem CloseScope_cons (t : SymbolTable α) (top : List String) (rest : List (List String))
    (h : t.scopeStack_ = top :: rest) :
    CloseScope t = { symTable_ := top.foldl closeIdent t.symTable_, scopeStack_ := rest } := by
  unfold CloseScope
  rw [h]

theorem CloseScope_nil (t : SymbolTable α) (h : t.scopeStack_ = []) : CloseScope t = t := by
  unfold CloseScope
  rw [h]

theorem CloseScope_OpenScope (t : SymbolTable α) : CloseScope (OpenScope t) = t := by
  simp [CloseScope, OpenScope]

theorem inv_new : Inv (new : SymbolTable α) where
  noEmpty := by intro ident; simp [new, OpenScope]
  levels := by intro ident; simp [new, OpenScope, stackOf, levelsOf]

theorem inv_OpenScope (t : SymbolTable α) (h : Inv t) : Inv (OpenScope t) where
  noEmpty := h.noEmpty
  levels := by
    intro ident
    have := h.levels ident
    simpa [OpenScope, stackOf, levelsOf] using this

theorem inv_CloseScope (t : SymbolTable α) (h : Inv t) : Inv (CloseScope t) := by
  cases hs : t.scopeStack_ with
  | nil => rw [CloseScope_nil t hs]; exact h
  | cons top rest =>
    rw [CloseScope_cons t top rest hs]
    constructor
    · intro ident
      simp only [foldl_closeIdent_apply]
      exact popN_ne_some_nil _ _ (h.noEmpty ident)
    · intro ident
      have hl := h.levels ident
      rw [hs] at hl
      simp only [stackOf, foldl_closeIdent_apply, getD_popN] at hl ⊢
      rw [List.map_drop, hl]
      simp [levelsOf]

theorem inv_registerNew (t : SymbolTable α) (ident : String) (symbol : Option α)
    (h : Inv t) (hne : t.scopeStack_ ≠ []) : Inv (registerNew t ident symbol) := by
  cases hs : t.scopeStack_ with
  | nil => exact absurd hs hne
  | cons top rest =>
    constructor
    · intro x
      by_cases hx : x = ident
      · subst hx
        simp [registerNew]
      · simp only [registerNew, Function.update_noteq hx]
        exact h.noEmpty x
    · intro x
      have hl := h.levels x
      rw [hs] at hl
      by_cases hx : x = ident
      · subst hx
        simp only [stackOf, levelsOf] at hl
        simp [registerNew, stackOf, hs, levelsOf, ScopeLevel, List.replicate_succ, hl]
      · have hx2 : ident ≠ x := fun e => hx e.symm
        simp only [stackOf, levelsOf] at hl
        simp [registerNew, stackOf, hs, levelsOf, Function.update_noteq hx, hl,
          List.count_cons_of_ne hx2, List.count_append, List.count_singleton, hx2]

theorem inv_overrideTop (t : SymbolTable α) (ident : String) (symbol : Option α)
    (entry : Symbol α) (below : List (Symbol α)) (h : Inv t)
    (he : t.symTable_ ident = some (entry :: below)) :
    Inv (overrideTop t ident symbol entry below) := by
  constructor
  · intro x
    by_cases hx : x = ident
    · subst hx
      simp [overrideTop]
    · simp only [overrideTop, Function.update_noteq hx]
      exact h.noEmpty x
  · intro x
    have hl := h.levels x
    by_cases hx : x = ident
    · subst hx
      simp only [stackOf, he] at hl
      simpa [overrideTop, stackOf] using hl
    · simpa [overrideTop, stackOf, Function.update_noteq hx] using hl

theorem levelsOf_le (ss : List (List String)) (ident : String) (l : Nat)
    (h : l ∈ levelsOf ss ident) : 1 ≤ l ∧ l ≤ ss.length := by
  induction ss with
  | nil => simp [levelsOf] at h
  | cons names rest ih =>
    simp only [levelsOf, List.mem_append, List.mem_replicate] at h
    rcases h with ⟨_, rfl⟩ | h
    · simp
    · have := ih h
      simp only [List.length_cons]
      omega

/-- The three ways `Register` can leave the table: as it was (failure, or an empty
identifier), with the top binding of the identifier overridden in the current scope, or
with a new binding pushed. -/
theorem Register_table_cases (t : SymbolTable α) (ident : String) (symbol : Option α)
    (overrideProc : OnOverrideProc α) :
    (Register t ident symbol overrideProc).table = t ∨
    (∃ entry below, t.scopeStack_ ≠ [] ∧ t.symTable_ ident = some (entry :: below) ∧
      entry.scopeLevel = ScopeLevel t ∧
      (Register t ident symbol overrideProc).table = overrideTop t ident symbol entry below) ∨
    (t.scopeStack_ ≠ [] ∧
      (Register t ident symbol overrideProc).table = registerNew t ident symbol) := by
  by_cases h1 : t.scopeStack_.isEmpty = true
  · left
    unfold Register
    rw [if_pos h1]
  · have hne : t.scopeStack_ ≠ [] := fun e => h1 (by simp [e])
    by_cases h2 : ident = ""
    · left
      unfold Register
      rw [if_neg h1, if_pos h2]
    · cases hm : t.symTable_ ident with
      | none =>
        right; right
        refine ⟨hne, ?_⟩
        unfold Register
        rw [if_neg h1, if_neg h2, hm]
      | some st =>
        cases st with
        | nil =>
          right; right
          refine ⟨hne, ?_⟩
          unfold Register
          rw [if_neg h1, if_neg h2, hm]
        | cons entry below =>
          by_cases h3 : (entry.symbol.isSome && entry.scopeLevel == ScopeLevel t) = true
          · have hl : entry.scopeLevel = ScopeLevel t := by
              simp only [Bool.and_eq_true, beq_iff_eq] at h3
              exact h3.2
            cases overrideProc with
            | none =>
              left
              unfold Register
              rw [if_neg h1, if_neg h2, hm]
              simp only [h3, if_true]
            | some proc =>
              by_cases h4 : proc entry.symbol = true
              · right; left
                refine ⟨entry, below, hne, rfl, hl, ?_⟩
                unfold Register
                rw [if_neg h1, if_neg h2, hm]
                simp only [h3, h4, if_true]
              · left
                unfold Register
                rw [if_neg h1, if_neg h2, hm]
                simp only [h3, h4, if_true]
                rfl
          · right; right
            refine ⟨hne, ?_⟩
            unfold Register
            rw [if_neg h1, if_neg h2, hm]
            simp only [h3]
            rfl

theorem inv_Register (t : SymbolTable α) (ident : String) (symbol : Option α)
    (overrideProc : OnOverrideProc α) (h : Inv t) :
    Inv (Register t ident symbol overrideProc).table := by
  rcases Register_table_cases t ident symbol overrideProc with
    e | ⟨entry, below, _, he, _, e⟩ | ⟨hne, e⟩
  · rw [e]; exact h
  · rw [e]; exact inv_overrideTop t ident symbol entry below h he
  · rw [e]; exact inv_registerNew t ident symbol h hne

theorem inv_step (t : SymbolTable α) (op : Op α) (h : Inv t) : Inv (step t op) := by
  cases op with
  | openScope => exact inv_OpenScope t h
  | closeScope => exact inv_CloseScope t h
  | register ident symbol overrideProc => exact inv_Register t ident symbol overrideProc h

theorem inv_of_reachable (t : SymbolTable α) (h : Reachable t) : Inv t := by
  induction h with
  | new => exact inv_new
  | step t op _ ih => exact inv_step t op ih

theorem reachable_run (ops : List (Op α)) (t : SymbolTable α) (h : Reachable t) :
    Reachable (run ops t) := by
  induction ops generalizing t with
  | nil => exact h
  | cons op ops ih => exact ih (step t op) (Reachable.step t op h)

theorem CloseScope_registerNew (t : SymbolTable α) (ident : String) (symbol : Option α)
    (h : Inv t) (hne : t.scopeStack_ ≠ []) :
    CloseScope (registerNew t ident symbol) = CloseScope t := by
  cases hs : t.scopeStack_ with
  | nil => exact absurd hs hne
  | cons top rest =>
    have hs2 : (registerNew t ident symbol).scopeStack_ = (top ++ [ident]) :: rest := by
      simp [registerNew, hs]
    rw [CloseScope_cons _ _ _ hs2, CloseScope_cons _ _ _ hs]
    congr 1
    funext x
    rw [foldl_closeIdent_apply, foldl_closeIdent_apply]
    by_cases hx : x = ident
    · subst hx
      have hc : (top ++ [x]).count x = top.count x + 1 := by simp [List.count_append]
      rw [hc, popN_succ]
      cases hm : t.symTable_ x with
      | none => simp [registerNew, pop1, popN_none, hm]
      | some st =>
        have hst : st ≠ [] := fun e => h.noEmpty x (by rw [hm, e])
        have hst2 : st.isEmpty = false := by
          cases st with
          | nil => exact absurd rfl hst
          | cons _ _ => rfl
        simp [registerNew, pop1, hm, hst2]
    · have hx2 : ident ≠ x := fun e => hx e.symm
      have hc : (top ++ [ident]).count x = top.count x := by
        simp [List.count_append, List.count_singleton, hx2]
      rw [hc]
      simp [registerNew, Function.update_noteq hx]

theorem CloseScope_overrideTop (t : SymbolTable α) (ident : String) (symbol : Option α)
    (entry : Symbol α) (below : List (Symbol α)) (h : Inv t) (hne : t.scopeStack_ ≠ [])
    (he : t.symTable_ ident = some (entry :: below)) (hl : entry.scopeLevel = ScopeLevel t) :
    CloseScope (overrideTop t ident symbol entry below) = CloseScope t := by
  cases hs : t.scopeStack_ with
  | nil => exact absurd hs hne
  | cons top rest =>
    have hs2 : (overrideTop t ident symbol entry below).scopeStack_ = top :: rest := by
      simp [overrideTop, hs]
    rw [CloseScope_cons _ _ _ hs2, CloseScope_cons _ _ _ hs]
    congr 1
    funext x
    rw [foldl_closeIdent_apply, foldl_closeIdent_apply]
    by_cases hx : x = ident
    · subst hx
      have hlev := h.levels x
      simp only [stackOf, he, hs, levelsOf, Option.getD_some, List.map_cons] at hlev
      cases hc : top.count x with
      | zero =>
        rw [hc] at hlev
        simp only [List.replicate_zero, List.nil_append] at hlev
        have hmem : entry.scopeLevel ∈ levelsOf rest x := by rw [← hlev]; simp
        have := (levelsOf_le rest x _ hmem).2
        simp only [ScopeLevel, hs, List.length_cons] at hl
        omega
      | succ k =>
        rw [popN_succ, popN_succ, he]
        simp [overrideTop, pop1]
    · simp [overrideTop, Function.update_noteq hx]

theorem CloseScope_Register (t : SymbolTable α) (ident : String) (symbol : Option α)
    (overrideProc : OnOverrideProc α) (h : Inv t) :
    CloseScope (Register t ident symbol overrideProc).table = CloseScope t := by
  rcases Register_table_cases t ident symbol overrideProc with
    e | ⟨entry, below, hne, he, hl, e⟩ | ⟨hne, e⟩
  · rw [e]
  · rw [e]; exact CloseScope_overrideTop t ident symbol entry below h hne he hl
  · rw [e]; exact CloseScope_registerNew t ident symbol h hne

theorem run_cons (op : Op α) (ops : List (Op α)) (t : SymbolTable α) :
    run (op :: ops) t = run ops (step t op) := rfl

theorem run_append (ops₁ ops₂ : List (Op α)) (t : SymbolTable α) :
    run (ops₁ ++ ops₂) t = run ops₂ (run ops₁ t) := by
  simp [run, List.foldl_append]

/-- Inside `depth` scopes that it has to close, a balanced call sequence has the effect
of closing these scopes. -/
theorem run_balancedFrom (ops : List (Op α)) (depth : Nat) (t : SymbolTable α) (h : Inv t)
    (hb : balancedFrom depth ops = true) : run ops t = closeN depth t := by
  induction ops generalizing depth t with
  | nil =>
    have : depth = 0 := by simpa [balancedFrom] using hb
    subst this
    rfl
  | cons op ops ih =>
    cases op with
    | openScope =>
      rw [balancedFrom] at hb
      rw [run_cons, ih (depth + 1) _ (inv_step t _ h) hb]
      simp [closeN, step, CloseScope_OpenScope]
    | closeScope =>
      cases depth with
      | zero => simp [balancedFrom] at hb
      | succ d =>
        rw [balancedFrom] at hb
        rw [run_cons, ih d _ (inv_step t _ h) hb]
        rfl
    | register ident symbol overrideProc =>
      cases depth with
      | zero => simp [balancedFrom] at hb
      | succ d =>
        rw [balancedFrom] at hb
        rw [run_cons, ih (d + 1) _ (inv_step t _ h) hb]
        simp [closeN, step, CloseScope_Register t ident symbol overrideProc h]

/-- A balanced call sequence leaves the table, name lists included, as it found it. -/
theorem run_balanced (ops : List (Op α)) (t : SymbolTable α) (h : Inv t)
    (hb : balanced ops = true) : run ops t = t :=
  run_balancedFrom ops 0 t h hb

/-- Calls made in the open scope are undone by closing it. -/
theorem CloseScope_run_inScopeFrom (ops : List (Op α)) (depth : Nat) (t : SymbolTable α)
    (h : Inv t) (hb : inScopeFrom depth ops = true) :
    CloseScope (run ops t) = closeN (depth + 1) t := by
  induction ops generalizing depth t with
  | nil =>
    have : depth = 0 := by simpa [inScopeFrom] using hb
    subst this
    rfl
  | cons op ops ih =>
    cases op with
    | openScope =>
      rw [inScopeFrom] at hb
      rw [run_cons, ih (depth + 1) _ (inv_step t _ h) hb]
      simp [closeN, step, CloseScope_OpenScope]
    | closeScope =>
      cases depth with
      | zero => simp [inScopeFrom] at hb
      | succ d =>
        rw [inScopeFrom] at hb
        rw [run_cons, ih d _ (inv_step t _ h) hb]
        rfl
    | register ident symbol overrideProc =>
      rw [inScopeFrom] at hb
      rw [run_cons, ih depth _ (inv_step t _ h) hb]
      simp [closeN, step, CloseScope_Register t ident symbol overrideProc h]

theorem balancedFrom_registers (depth : Nat)
    (regs : List (String × Option α × OnOverrideProc α)) (ops : List (Op α)) :
    balancedFrom (depth + 1) ((regs.map fun r => Op.register r.1 r.2.1 r.2.2) ++ ops)
      = balancedFrom (depth + 1) ops := by
  induction regs with
  | nil => rfl
  | cons r regs ih => simpa [balancedFrom] using ih

theorem balancedFrom_nested (pre post : Nat → List (String × Option α × OnOverrideProc α))
    (n k depth : Nat) (ops : List (Op α)) :
    balancedFrom depth (nested pre post k n ++ ops) = balancedFrom depth ops := by
  induction n generalizing k depth ops with
  | zero => rfl
  | succ n ih =>
    simp only [nested, List.cons_append, List.append_assoc, balancedFrom]
    rw [balancedFrom_registers, ih, balancedFrom_registers]
    rfl

theorem balanced_nested (pre post : Nat → List (String × Option α × OnOverrideProc α))
    (n : Nat) : balanced (nested pre post 0 n) = true := by
  have := balancedFrom_nested pre post n 0 0 []
  simpa [balanced, balancedFrom] using this

theorem scopeStack_ne_nil (t : SymbolTable α) (h : 1 ≤ ScopeLevel t) : t.scopeStack_ ≠ [] := by
  intro e
  simp [ScopeLevel, e] at h

/-- The call `Register` with a scope open and a non-empty identifier whose top binding,
if any, is null or not of the current level: the new binding is pushed. -/
theorem Register_eq_registerNew (t : SymbolTable α) (ident : String) (symbol : Option α)
    (overrideProc : OnOverrideProc α) (hne : t.scopeStack_ ≠ []) (hid : ident ≠ "")
    (hfree : ∀ entry below, t.symTable_ ident = some (entry :: below) →
      (entry.symbol.isSome && entry.scopeLevel == ScopeLevel t) = false) :
    Register t ident symbol overrideProc
      = { table := registerNew t ident symbol, error := none, calls := [] } := by
  have h1 : ¬ t.scopeStack_.isEmpty = true := fun e => hne (List.isEmpty_iff.mp e)
  unfold Register
  rw [if_neg h1, if_neg hid]
  cases hm : t.symTable_ ident with
  | none => rfl
  | some st =>
    cases st with
    | nil => rfl
    | cons entry below =>
      have := hfree entry below hm
      simp only [this]
      rfl

/-- The call `Register` with a scope open and a non-empty identifier whose top binding is
non-null and of the current level: the callback decides. -/
theorem Register_eq_conflict (t : SymbolTable α) (ident : String) (symbol : Option α)
    (overrideProc : OnOverrideProc α) (hne : t.scopeStack_ ≠ []) (hid : ident ≠ "")
    (entry : Symbol α) (below : List (Symbol α))
    (hm : t.symTable_ ident = some (entry :: below))
    (hc : (entry.symbol.isSome && entry.scopeLevel == ScopeLevel t) = true) :
    Register t ident symbol overrideProc =
      match overrideProc with
      | some proc =>
        if proc entry.symbol then
          { table := overrideTop t ident symbol entry below, error := none,
            calls := [entry.symbol] }
        else { table := t, error := some (alreadyDeclared ident), calls := [entry.symbol] }
      | none => { table := t, error := some (alreadyDeclared ident), calls := [] } := by
  have h1 : ¬ t.scopeStack_.isEmpty = true := fun e => hne (List.isEmpty_iff.mp e)
  unfold Register
  rw [if_neg h1, if_neg hid, hm]
  simp only [hc, if_true]

theorem stackOf_eq_cons (t : SymbolTable α) (ident : String) (entry : Symbol α)
    (below : List (Symbol α)) (h : stackOf t ident = entry :: below) :
    t.symTable_ ident = some (entry :: below) := by
  unfold stackOf at h
  cases hm : t.symTable_ ident with
  | none => simp [hm] at h
  | some st => simpa [hm] using h

theorem Fetch_eq_head (t : SymbolTable α) (ident : String) :
    Fetch t ident = ((stackOf t ident).head?).bind Symbol.symbol := by
  unfold Fetch stackOf
  cases hm : t.symTable_ ident with
  | none => rfl
  | some st =>
    cases st with
    | nil => rfl
    | cons entry below => rfl

/-- Closing a scope in which `ident` has no binding leaves the stack of `ident`. -/
theorem stackOf_CloseScope_of_free (t : SymbolTable α) (ident : String) (h : Inv t)
    (hfree : ∀ b ∈ stackOf t ident, b.scopeLevel ≠ ScopeLevel t) :
    (CloseScope t).symTable_ ident = t.symTable_ ident := by
  cases hs : t.scopeStack_ with
  | nil => rw [CloseScope_nil t hs]
  | cons top rest =>
    rw [CloseScope_cons t top rest hs]
    simp only [foldl_closeIdent_apply]
    have hl := h.levels ident
    rw [hs] at hl
    cases hc : top.count ident with
    | zero => rfl
    | succ k =>
      exfalso
      simp only [levelsOf, hc, List.replicate_succ, List.cons_append] at hl
      cases hst : stackOf t ident with
      | nil => simp [hst] at hl
      | cons b bs =>
        rw [hst] at hl
        simp only [List.map_cons, List.cons.injEq] at hl
        have := hfree b (by rw [hst]; simp)
        simp only [ScopeLevel, hs, List.length_cons] at this
        exact this hl.1

theorem ScopeLevel_registerNew (t : SymbolTable α) (ident : String) (symbol : Option α)
    (hne : t.scopeStack_ ≠ []) : ScopeLevel (registerNew t ident symbol) = ScopeLevel t := by
  cases hs : t.scopeStack_ with
  | nil => exact absurd hs hne
  | cons top rest => simp [ScopeLevel, registerNew, hs]

/-! ### The claims about the symbol table -/

/-- C1 (scope restoration). From every reachable table, every balanced call sequence
(scopes are opened, `Register` is called only inside the newly opened scopes, a failing
`Register` leaving the table as it was, and the opened scopes are closed again) leaves
`ScopeLevel()` and `Fetch(ident)` of every identifier as they were before; on a new
table `ScopeLevel()` is 1 again and `Fetch` finds nothing; the sequences of `N` nested
scopes are balanced for every `N`. -/
theorem scope_restoration (t : SymbolTable α) (ht : Reachable t) (ops : List (Op α))
    (hb : balanced ops = true) :
    (ScopeLevel (run ops t) = ScopeLevel t ∧
      ∀ ident, Fetch (run ops t) ident = Fetch t ident) ∧
    (ScopeLevel (run ops (new : SymbolTable α)) = 1 ∧
      ∀ ident, Fetch (run ops (new : SymbolTable α)) ident = none) ∧
    (∀ (N : Nat) (pre post : Nat → List (String × Option α × OnOverrideProc α)),
      balanced (nested pre post 0 N) = true) := by
  refine ⟨?_, ?_, fun N pre post => balanced_nested pre post N⟩
  · rw [run_balanced ops t (inv_of_reachable t ht) hb]
    exact ⟨rfl, fun _ => rfl⟩
  · rw [run_balanced ops new inv_new hb]
    exact ⟨rfl, fun _ => rfl⟩

/-- Witness of C1: the scenario of the specification inside a new table. -/
theorem scope_restoration_witness :
    balanced [Op.openScope, Op.register "x" (some 1) none, Op.openScope,
      Op.register "x" (some 2) none, Op.closeScope, Op.closeScope] = true ∧
    ScopeLevel (run [Op.openScope, Op.register "x" (some 1) none, Op.openScope,
      Op.register "x" (some 2) none, Op.closeScope, Op.closeScope]
      (new : SymbolTable Nat)) = 1 ∧
    Fetch (run [Op.openScope, Op.register "x" (some 1) none, Op.openScope,
      Op.register "x" (some 2) none, Op.closeScope, Op.closeScope]
      (new : SymbolTable Nat)) "x" = none :=
  have h := scope_restoration (new : SymbolTable Nat) Reachable.new
    [Op.openScope, Op.register "x" (some 1) none, Op.openScope,
      Op.register "x" (some 2) none, Op.closeScope, Op.closeScope] (by decide)
  ⟨by decide, h.2.1.1, h.2.1.2 "x"⟩

/-- C2 (shadowing). With a scope open, for a non-empty identifier that has no binding
of the current scope level, `Register(ident, p, cb)` succeeds for every payload and
every callback without invoking the callback, pushes the new binding on the bindings
of the identifier, and `Fetch(ident)` then returns `p`. -/
theorem register_shadows (t : SymbolTable α) (hopen : 1 ≤ ScopeLevel t) (ident : String)
    (hid : ident ≠ "")
    (hfree : ∀ b ∈ stackOf t ident, b.scopeLevel ≠ ScopeLevel t)
    (p : Option α) (cb : OnOverrideProc α) :
    (Register t ident p cb).error = none ∧
    (Register t ident p cb).calls = [] ∧
    Fetch (Register t ident p cb).table ident = p ∧
    stackOf (Register t ident p cb).table ident
      = { symbol := p, scopeLevel := ScopeLevel t } :: stackOf t ident := by
  have hreg := Register_eq_registerNew t ident p cb (scopeStack_ne_nil t hopen) hid (by
    intro entry below hm
    have := hfree entry (by simp [stackOf, hm])
    simp [this])
  rw [hreg]
  refine ⟨rfl, rfl, ?_, ?_⟩
  · simp [Fetch, registerNew]
  · simp [stackOf, registerNew]

/-- Witness of C2: `x` bound in the global scope is shadowed in a nested scope. -/
theorem register_shadows_witness :
    Fetch (Register (OpenScope (Register (new : SymbolTable Nat) "x" (some 1) none).table)
      "x" (some 2) (some fun _ => false)).table "x" = some 2 :=
  (register_shadows (OpenScope (Register (new : SymbolTable Nat) "x" (some 1) none).table)
    (by decide) "x" (by decide) (by decide) (some 2) (some fun _ => false)).2.2.1

/-- C3, as stated, fails: a binding with a null payload registered at the current scope
level does not make a second `Register` of the identifier fail. In a new table `x` is
registered with `nullptr`; its only binding has level 1, the current level; then
`Register("x", p)` without callback throws nothing and pushes a second binding. -/
theorem register_duplicate_null_counterexample :
    ScopeLevel (Register (new : SymbolTable Nat) "x" none none).table = 1 ∧
    (stackOf (Register (new : SymbolTable Nat) "x" none none).table "x").map
      Symbol.scopeLevel = [1] ∧
    (Register (Register (new : SymbolTable Nat) "x" none none).table "x" (some 7) none).error
      = none ∧
    (stackOf (Register (Register (new : SymbolTable Nat) "x" none none).table
      "x" (some 7) none).table "x").map Symbol.scopeLevel = [1, 1] := by
  decide

/-- C3, amended (duplicate declaration). For a non-empty identifier whose top binding
is of the current scope level and has a non-null payload, `Register(ident, p)` with the
callback omitted, or with a callback that returns false on the existing payload, fails
with the runtime error "identifier '<ident>' already declared in this scope", and the
table is left as it was. -/
theorem register_duplicate_fails (t : SymbolTable α) (hopen : 1 ≤ ScopeLevel t)
    (ident : String) (hid : ident ≠ "") (a : α) (level : Nat) (below : List (Symbol α))
    (htop : stackOf t ident = { symbol := some a, scopeLevel := level } :: below)
    (hlevel : level = ScopeLevel t) (p : Option α) (cb : OnOverrideProc α)
    (hcb : cb = none ∨ ∃ proc, cb = some proc ∧ proc (some a) = false) :
    (Register t ident p cb).error
      = some ("identifier '" ++ ident ++ "' already declared in this scope") ∧
    (Register t ident p cb).table = t := by
  have hreg := Register_eq_conflict t ident p cb (scopeStack_ne_nil t hopen) hid _ below
    (stackOf_eq_cons t ident _ below htop) (by simp [hlevel])
  rw [hreg]
  rcases hcb with rfl | ⟨proc, rfl, hproc⟩
  · exact ⟨rfl, rfl⟩
  · simp only [hproc]
    exact ⟨rfl, rfl⟩

/-- Witness of C3, amended: `x` registered twice in the global scope, the second time
with a refusing callback. -/
theorem register_duplicate_fails_witness :
    (Register (Register (new : SymbolTable Nat) "x" (some 1) none).table "x" (some 2)
      (some fun _ => false)).error = some "identifier 'x' already declared in this scope" :=
  (register_duplicate_fails (Register (new : SymbolTable Nat) "x" (some 1) none).table
    (by decide) "x" (by decide) 1 1 [] (by decide) (by decide) (some 2)
    (some fun _ => false) (Or.inr ⟨fun _ => false, rfl, rfl⟩)).1

/-- C4, as stated, fails: when the binding of the current scope level has a null
payload `A`, a callback with `cb(A)` true is not invoked and the new binding is stacked
on the old one instead of replacing it. In a new table `x` is registered with `nullptr`
(level 1, payload null), then `Register("x", B, cb)` with `cb` always true is called. -/
theorem register_override_null_counterexample :
    stackOf (Register (new : SymbolTable Nat) "x" none none).table "x"
      = [{ symbol := none, scopeLevel := 1 }] ∧
    ScopeLevel (Register (new : SymbolTable Nat) "x" none none).table = 1 ∧
    (Register (Register (new : SymbolTable Nat) "x" none none).table "x" (some 7)
      (some fun _ => true)).calls = [] ∧
    stackOf (Register (Register (new : SymbolTable Nat) "x" none none).table "x" (some 7)
      (some fun _ => true)).table "x"
      = [{ symbol := some 7, scopeLevel := 1 }, { symbol := none, scopeLevel := 1 }] := by
  decide

/-- C4, amended (override). In every reachable table in which the top binding of a
non-empty identifier is of the current scope level and has a non-null payload `A`,
`Register(ident, B, cb)` with `cb(A)` true succeeds, invokes `cb` once, on `A`, makes
`Fetch(ident)` return `B`, leaves `ScopeLevel()` unchanged and replaces the binding in
place (the bindings below it stay, none is added), so that the following `CloseScope`
has the effect it has without the override; and when the table came, by calls made in
the current scope (calls `ops` that close only scopes they opened), from a table `t0`
in which the identifier had no binding of the current level, `Fetch(ident)` after the
following `CloseScope` is `Fetch(ident)` of `t0`. When instead the top binding of the
identifier has a null payload, in any table with a scope open and for any callback,
present or omitted, `Register(ident, B, cb)` succeeds without invoking the callback and
stacks the new binding, of the current level, on the null binding, which stays. -/
theorem register_override (t : SymbolTable α) (ht : Reachable t) (ident : String)
    (hid : ident ≠ "") (A : α) (level : Nat) (below : List (Symbol α))
    (htop : stackOf t ident = { symbol := some A, scopeLevel := level } :: below)
    (hlevel : level = ScopeLevel t) (B : Option α) (cb : Option α → Bool)
    (hcb : cb (some A) = true) :
    (Register t ident B (some cb)).error = none ∧
    (Register t ident B (some cb)).calls = [some A] ∧
    Fetch (Register t ident B (some cb)).table ident = B ∧
    ScopeLevel (Register t ident B (some cb)).table = ScopeLevel t ∧
    stackOf (Register t ident B (some cb)).table ident
      = { symbol := B, scopeLevel := level } :: below ∧
    CloseScope (Register t ident B (some cb)).table = CloseScope t ∧
    (∀ (t0 : SymbolTable α) (ops : List (Op α)), Reachable t0 →
      (∀ b ∈ stackOf t0 ident, b.scopeLevel ≠ ScopeLevel t0) →
      inScopeFrom 0 ops = true → run ops t0 = t →
      Fetch (CloseScope (Register t ident B (some cb)).table) ident = Fetch t0 ident) ∧
    (∀ (s : SymbolTable α) (nullLevel : Nat) (rest : List (Symbol α))
      (cb' : OnOverrideProc α), 1 ≤ ScopeLevel s →
      stackOf s ident = { symbol := none, scopeLevel := nullLevel } :: rest →
      (Register s ident B cb').error = none ∧
      (Register s ident B cb').calls = [] ∧
      Fetch (Register s ident B cb').table ident = B ∧
      ScopeLevel (Register s ident B cb').table = ScopeLevel s ∧
      stackOf (Register s ident B cb').table ident
        = { symbol := B, scopeLevel := ScopeLevel s }
            :: { symbol := none, scopeLevel := nullLevel } :: rest) := by
  have hinv := inv_of_reachable t ht
  have hm := stackOf_eq_cons t ident _ below htop
  have hopen : 1 ≤ ScopeLevel t := by
    have hl := hinv.levels ident
    rw [htop] at hl
    have := (levelsOf_le t.scopeStack_ ident level (by rw [← hl]; simp)).1
    rw [← hlevel]
    exact this
  have hclose := CloseScope_Register t ident B (some cb) hinv
  have hreg := Register_eq_conflict t ident B (some cb) (scopeStack_ne_nil t hopen) hid _ below
    hm (by simp [hlevel])
  simp only [hcb, if_true] at hreg
  refine ⟨?_, ?_, ?_, ?_, ?_, hclose, ?_, ?_⟩
  · rw [hreg]
  · rw [hreg]
  · rw [hreg]; simp [Fetch, overrideTop]
  · rw [hreg]; rfl
  · rw [hreg]; simp [stackOf, overrideTop]
  · intro t0 ops h0 hfree hops hrun
    have hinv0 := inv_of_reachable t0 h0
    have h1 := CloseScope_run_inScopeFrom ops 0 t0 hinv0 hops
    rw [hrun] at h1
    rw [hclose, h1]
    simp only [closeN, Fetch]
    rw [stackOf_CloseScope_of_free t0 ident hinv0 hfree]
  · intro s nullLevel rest cb' hs hnull
    have hms := stackOf_eq_cons s ident _ rest hnull
    have hnew := Register_eq_registerNew s ident B cb' (scopeStack_ne_nil s hs) hid (by
      intro entry below' he
      rw [hms] at he
      simp only [Option.some.injEq, List.cons.injEq] at he
      rw [← he.1]
      rfl)
    rw [hnew]
    refine ⟨rfl, rfl, ?_, ?_, ?_⟩
    · simp [Fetch, registerNew]
    · exact ScopeLevel_registerNew s ident B (scopeStack_ne_nil s hs)
    · simp [stackOf, registerNew, hms]

/-- Witness of C4, amended: `x → 1` is registered in a nested scope, over `x → 0` of the
global scope, and overridden by `x → 2`; and in a nested scope where `x` is bound to
`nullptr`, `x → 2` is stacked on that binding without a call of the accepting callback. -/
theorem register_override_witness :
    Fetch (Register (Register (OpenScope (Register (new : SymbolTable Nat) "x" (some 0)
      none).table) "x" (some 1) none).table "x" (some 2) (some fun _ => true)).table "x"
      = some 2 ∧
    Fetch (CloseScope (Register (Register (OpenScope (Register (new : SymbolTable Nat) "x"
      (some 0) none).table) "x" (some 1) none).table "x" (some 2)
      (some fun _ => true)).table) "x"
      = Fetch (OpenScope (Register (new : SymbolTable Nat) "x" (some 0) none).table) "x" ∧
    (Register (Register (OpenScope (new : SymbolTable Nat)) "x" none none).table "x" (some 2)
      (some fun _ => true)).calls = [] ∧
    stackOf (Register (Register (OpenScope (new : SymbolTable Nat)) "x" none none).table "x"
      (some 2) (some fun _ => true)).table "x"
      = [{ symbol := some 2, scopeLevel := 2 }, { symbol := none, scopeLevel := 2 }] :=
  have h := register_override
    (Register (OpenScope (Register (new : SymbolTable Nat) "x" (some 0) none).table)
      "x" (some 1) none).table
    (Reachable.step _ (Op.register "x" (some 1) none)
      (Reachable.step _ Op.openScope
        (Reachable.step _ (Op.register "x" (some 0) none) Reachable.new)))
    "x" (by decide) 1 2 [{ symbol := some 0, scopeLevel := 1 }] (by decide) (by decide)
    (some 2) (fun _ => true) rfl
  have hnull := h.2.2.2.2.2.2.2
    (Register (OpenScope (new : SymbolTable Nat)) "x" none none).table 2 []
    (some fun _ => true) (by decide) (by decide)
  ⟨h.2.2.1,
    h.2.2.2.2.2.2.1 (OpenScope (Register (new : SymbolTable Nat) "x" (some 0) none).table)
      [Op.register "x" (some 1) none]
      (Reachable.step _ Op.openScope
        (Reachable.step _ (Op.register "x" (some 0) none) Reachable.new))
      (by decide) (by decide) rfl,
    hnull.2.1, hnull.2.2.2.2⟩

/-- C5 (no scope open). In a table with `ScopeLevel() == 0`, `Register` fails for every
identifier, the empty one included, every payload and every callback with the runtime
error "no active scope to register symbol", never invokes the callback, and leaves the
table as it was. -/
theorem register_without_scope (t : SymbolTable α) (h : ScopeLevel t = 0) (ident : String)
    (p : Option α) (cb : OnOverrideProc α) :
    (Register t ident p cb).error = some "no active scope to register symbol" ∧
    (Register t ident p cb).calls = [] ∧
    (Register t ident p cb).table = t := by
  have hs : t.scopeStack_ = [] := List.length_eq_zero.mp h
  unfold Register
  simp [hs]

/-- Witness of C5: the global scope of a new table is closed, then the empty
identifier is registered with an accepting callback. -/
theorem register_without_scope_witness :
    ScopeLevel (CloseScope (new : SymbolTable Nat)) = 0 ∧
    (Register (CloseScope (new : SymbolTable Nat)) "" (some 1) (some fun _ => true)).error
      = some "no active scope to register symbol" :=
  ⟨by decide,
    (register_without_scope (CloseScope (new : SymbolTable Nat)) (by decide) ""
      (some 1) (some fun _ => true)).1⟩

end SymbolTable

/-! ## Properties of the overload bucket -/

namespace ASTSymbolOverload

variable {τ : Type}

theorem filter_of_onlyOne (P : AST τ → Prop) (p : AST τ → Bool)
    (hp : ∀ r, p r = true ↔ P r) (refs : List (AST τ)) (f : AST τ)
    (h : OnlyOne P refs f) : refs.filter p = [f] := by
  obtain ⟨before, after, rfl, hf, hb, ha⟩ := h
  have h1 : before.filter p = [] :=
    List.filter_eq_nil_iff.mpr fun r hr hpr => hb r hr ((hp r).mp hpr)
  have h2 : after.filter p = [] :=
    List.filter_eq_nil_iff.mpr fun r hr hpr => ha r hr ((hp r).mp hpr)
  have h3 : p f = true := (hp f).mpr hf
  simp [List.filter_append, List.filter_cons, h1, h2, h3]

theorem filter_of_none (P : AST τ → Prop) (p : AST τ → Bool)
    (hp : ∀ r, p r = true ↔ P r) (refs : List (AST τ))
    (h : ∀ r ∈ refs, ¬ P r) : refs.filter p = [] :=
  List.filter_eq_nil_iff.mpr fun r hr hpr => h r hr ((hp r).mp hpr)

theorem filter_of_several (P : AST τ → Prop) (p : AST τ → Bool)
    (hp : ∀ r, p r = true ↔ P r) (refs : List (AST τ))
    (h : Several P refs) : ∃ a b rest, refs.filter p = a :: b :: rest := by
  obtain ⟨before, f, between, g, after, rfl, hf, hg⟩ := h
  have h3 : p f = true := (hp f).mpr hf
  have h4 : p g = true := (hp g).mpr hg
  have hlen : 2 ≤ ((before ++ f :: (between ++ g :: after)).filter p).length := by
    simp only [List.filter_append, List.filter_cons, h3, h4, if_true, List.length_append,
      List.length_cons]
    omega
  cases hfl : (before ++ f :: (between ++ g :: after)).filter p with
  | nil => rw [hfl] at hlen; simp at hlen
  | cons a t =>
    cases t with
    | nil => rw [hfl] at hlen; simp at hlen
    | cons b rest => exact ⟨a, b, rest, rfl⟩

theorem match_exact_iff [DecidableEq τ] (castable : τ → τ → Bool)
    (parameters args : List τ) :
    MatchFunctionDeclWithArgs castable parameters args false = true ↔ parameters = args := by
  induction parameters generalizing args with
  | nil => cases args <;> simp [MatchFunctionDeclWithArgs]
  | cons q qs ih =>
    cases args with
    | nil => simp [MatchFunctionDeclWithArgs]
    | cons a as =>
      simp only [MatchFunctionDeclWithArgs, Bool.and_eq_true, ih, List.cons.injEq]
      constructor
      · rintro ⟨h1, h2⟩
        exact ⟨(by simpa using h1 : a = q).symm, h2⟩
      · rintro ⟨h1, h2⟩
        exact ⟨by simp [h1], h2⟩

theorem match_convertible_iff [DecidableEq τ] (castable : τ → τ → Bool)
    (parameters args : List τ) :
    MatchFunctionDeclWithArgs castable parameters args true = true ↔
      List.Forall₂ (fun argument parameter => castable argument parameter = true)
        args parameters := by
  induction parameters generalizing args with
  | nil => cases args <;> simp [MatchFunctionDeclWithArgs]
  | cons q qs ih =>
    cases args with
    | nil => simp [MatchFunctionDeclWithArgs]
    | cons a as =>
      simp [MatchFunctionDeclWithArgs, ih]

theorem exact_test_iff [DecidableEq τ] (castable : τ → τ → Bool) (args : List τ)
    (r : AST τ) :
    (matchesArgs castable args false r && hasNumArgs args.length r) = true ↔ IsExact args r := by
  cases r with
  | VarLike n => simp [matchesArgs, IsExact]
  | TypeLike n => simp [matchesArgs, IsExact]
  | FunctionDecl n parameters =>
    simp only [matchesArgs, hasNumArgs, IsExact, Bool.and_eq_true, match_exact_iff, beq_iff_eq]
    constructor
    · exact fun h => h.1
    · intro h
      exact ⟨h, by rw [h]⟩

theorem convertible_test_iff [DecidableEq τ] (castable : τ → τ → Bool) (args : List τ)
    (r : AST τ) :
    (matchesArgs castable args true r && hasNumArgs args.length r) = true
      ↔ IsConvertible castable args r := by
  cases r with
  | VarLike n => simp [matchesArgs, IsConvertible]
  | TypeLike n => simp [matchesArgs, IsConvertible]
  | FunctionDecl n parameters =>
    simp only [matchesArgs, hasNumArgs, IsConvertible, Bool.and_eq_true,
      match_convertible_iff, beq_iff_eq]
    constructor
    · exact fun h => h.1
    · intro h
      exact ⟨h, h.length_eq.symm⟩

theorem tier_eq_filter [DecidableEq τ] (castable : τ → τ → Bool) (o : ASTSymbolOverload τ)
    (args : List τ) (implicitTypeConversion : Bool) :
    tier castable o args implicitTypeConversion
      = o.refs_.filter fun r =>
          matchesArgs castable args implicitTypeConversion r && hasNumArgs args.length r := by
  simp [tier, candidates, List.filter_filter]

/-- C6 (overload resolution). For every overload set and argument list: the only exact
candidate is returned, whatever else is convertible; with no exact candidate the only
convertible candidate is returned; with no exact and no convertible candidate the
failure is "no matching function"; with several exact candidates, or no exact and
several convertible ones, the failure is "ambiguous call". Candidates have as many
parameters as there are arguments. -/
theorem fetchFunctionDecl_resolution [DecidableEq τ] (castable : τ → τ → Bool)
    (o : ASTSymbolOverload τ) (args : List τ) :
    (∀ f, OnlyOne (IsExact args) o.refs_ f → FetchFunctionDecl castable o args = .ok f) ∧
    (∀ f, (∀ r ∈ o.refs_, ¬ IsExact args r) → OnlyOne (IsConvertible castable args) o.refs_ f →
      FetchFunctionDecl castable o args = .ok f) ∧
    ((∀ r ∈ o.refs_, ¬ IsExact args r) → (∀ r ∈ o.refs_, ¬ IsConvertible castable args r) →
      FetchFunctionDecl castable o args = .error (.runtimeError "no matching function")) ∧
    (Several (IsExact args) o.refs_ →
      FetchFunctionDecl castable o args = .error (.runtimeError "ambiguous call")) ∧
    ((∀ r ∈ o.refs_, ¬ IsExact args r) → Several (IsConvertible castable args) o.refs_ →
      FetchFunctionDecl castable o args = .error (.runtimeError "ambiguous call")) ∧
    (∀ r, IsExact args r ∨ IsConvertible castable args r →
      ∃ node parameters, r = .FunctionDecl node parameters ∧ parameters.length = args.length) := by
  have hE := exact_test_iff castable args
  have hC := convertible_test_iff castable args
  refine ⟨?_, ?_, ?_, ?_, ?_, ?_⟩
  · intro f h
    have := filter_of_onlyOne _ _ hE o.refs_ f h
    simp [FetchFunctionDecl, tier_eq_filter, this, uniqueCandidate]
  · intro f h0 h
    have h1 := filter_of_none _ _ hE o.refs_ h0
    have := filter_of_onlyOne _ _ hC o.refs_ f h
    simp [FetchFunctionDecl, tier_eq_filter, this, h1, uniqueCandidate]
  · intro h0 h
    have h1 := filter_of_none _ _ hE o.refs_ h0
    have h2 := filter_of_none _ _ hC o.refs_ h
    simp [FetchFunctionDecl, tier_eq_filter, h1, h2]
  · intro h
    obtain ⟨a, b, rest, this⟩ := filter_of_several _ _ hE o.refs_ h
    simp [FetchFunctionDecl, tier_eq_filter, this, uniqueCandidate]
  · intro h0 h
    have h1 := filter_of_none _ _ hE o.refs_ h0
    obtain ⟨a, b, rest, this⟩ := filter_of_several _ _ hC o.refs_ h
    simp [FetchFunctionDecl, tier_eq_filter, this, h1, uniqueCandidate]
  · intro r h
    cases r with
    | VarLike n => simp [IsExact, IsConvertible] at h
    | TypeLike n => simp [IsExact, IsConvertible] at h
    | FunctionDecl n parameters =>
      refine ⟨n, parameters, rfl, ?_⟩
      rcases h with h | h
      · simp only [IsExact] at h
        rw [h]
      · simp only [IsConvertible] at h
        exact h.length_eq.symm

/-- Witness of C6: `f(int)` and `f(float)` called with `Int` give `f(int)`, though
`f(float)` is convertible; `f(int, float)` and `f(float, int)` called with `(Int, Int)`
are ambiguous. -/
theorem fetchFunctionDecl_resolution_witness :
    FetchFunctionDecl IsCastableTo
      { ident_ := "f", refs_ := [.FunctionDecl 0 [DataType.Int], .FunctionDecl 1 [DataType.Float]] }
      [DataType.Int] = .ok (.FunctionDecl 0 [DataType.Int]) ∧
    IsConvertible IsCastableTo [DataType.Int] (.FunctionDecl 1 [DataType.Float]) ∧
    FetchFunctionDecl IsCastableTo
      { ident_ := "f", refs_ := [.FunctionDecl 0 [DataType.Int, DataType.Float],
          .FunctionDecl 1 [DataType.Float, DataType.Int]] }
      [DataType.Int, DataType.Int] = .error (.runtimeError "ambiguous call") :=
  ⟨(fetchFunctionDecl_resolution IsCastableTo
      { ident_ := "f", refs_ := [.FunctionDecl 0 [DataType.Int], .FunctionDecl 1 [DataType.Float]] }
      [DataType.Int]).1 (.FunctionDecl 0 [DataType.Int])
      ⟨[], [.FunctionDecl 1 [DataType.Float]], rfl, rfl, by simp, by simp [IsExact]⟩,
    List.Forall₂.cons (by decide) List.Forall₂.nil,
    (fetchFunctionDecl_resolution IsCastableTo
      { ident_ := "f", refs_ := [.FunctionDecl 0 [DataType.Int, DataType.Float],
          .FunctionDecl 1 [DataType.Float, DataType.Int]] }
      [DataType.Int, DataType.Int]).2.2.2.2.1 (by simp [IsExact])
      ⟨[], .FunctionDecl 0 [DataType.Int, DataType.Float], [],
        .FunctionDecl 1 [DataType.Float, DataType.Int], [], rfl,
        List.Forall₂.cons (by decide) (List.Forall₂.cons (by decide) List.Forall₂.nil),
        List.Forall₂.cons (by decide) (List.Forall₂.cons (by decide) List.Forall₂.nil)⟩⟩

theorem admitsFunction_eq_false [DecidableEq τ] (parameters : List τ) (r : AST τ) :
    admitsFunction parameters r = false ↔
      IsVarOrType r ∨ ∃ node, r = .FunctionDecl node parameters := by
  cases r with
  | VarLike n => simp [admitsFunction, IsVarOrType]
  | TypeLike n => simp [admitsFunction, IsVarOrType]
  | FunctionDecl n existing => simp [admitsFunction, IsVarOrType]

theorem admitsFunction_eq_true [DecidableEq τ] (parameters : List τ) (r : AST τ) :
    admitsFunction parameters r = true ↔
      ∃ node existing, r = .FunctionDecl node existing ∧ existing ≠ parameters := by
  cases r with
  | VarLike n => simp [admitsFunction]
  | TypeLike n => simp [admitsFunction]
  | FunctionDecl n existing =>
    simp only [admitsFunction, decide_eq_true_eq]
    constructor
    · intro h
      exact ⟨n, existing, rfl, h⟩
    · rintro ⟨node, e, he, hne⟩
      cases he
      exact hne

theorem AddSymbolRef_function [DecidableEq τ] (o : ASTSymbolOverload τ) (node : Nat)
    (parameters : List τ) :
    AddSymbolRef o (.FunctionDecl node parameters) =
      if o.refs_.all (admitsFunction parameters) then
        (true, { o with refs_ := o.refs_ ++ [.FunctionDecl node parameters] })
      else (false, o) := rfl

theorem AddSymbolRef_varOrType [DecidableEq τ] (o : ASTSymbolOverload τ) (ast : AST τ)
    (h : IsVarOrType ast) :
    AddSymbolRef o ast =
      if o.refs_.isEmpty then (true, { o with refs_ := o.refs_ ++ [ast] }) else (false, o) := by
  cases ast with
  | VarLike n => rfl
  | TypeLike n => rfl
  | FunctionDecl n parameters => exact absurd h (by simp [IsVarOrType])

theorem wellFormedRefs_AddSymbolRef [DecidableEq τ] (o : ASTSymbolOverload τ) (ast : AST τ)
    (h : WellFormedRefs o.refs_) : WellFormedRefs (AddSymbolRef o ast).2.refs_ := by
  cases ast with
  | VarLike n =>
    rw [AddSymbolRef_varOrType o _ (by simp [IsVarOrType])]
    cases hr : o.refs_ with
    | nil => exact Or.inl ⟨n, by simp⟩
    | cons a t => simpa [hr] using h
  | TypeLike n =>
    rw [AddSymbolRef_varOrType o _ (by simp [IsVarOrType])]
    cases hr : o.refs_ with
    | nil => exact Or.inr (Or.inl ⟨n, by simp⟩)
    | cons a t => simpa [hr] using h
  | FunctionDecl n parameters =>
    rw [AddSymbolRef_function]
    by_cases hall : o.refs_.all (admitsFunction parameters) = true
    · rw [if_pos hall]
      have hall2 : ∀ r ∈ o.refs_, ∃ node existing,
          r = .FunctionDecl node existing ∧ existing ≠ parameters := by
        intro r hr
        exact (admitsFunction_eq_true parameters r).mp (List.all_eq_true.mp hall r hr)
      have hpw : o.refs_.Pairwise fun a b =>
          ∀ n₁ p₁ n₂ p₂, a = .FunctionDecl n₁ p₁ → b = .FunctionDecl n₂ p₂ → p₁ ≠ p₂ := by
        rcases h with ⟨m, hm⟩ | ⟨m, hm⟩ | ⟨_, hpw⟩
        · obtain ⟨_, _, he, _⟩ := hall2 (.VarLike m) (by rw [hm]; simp)
          cases he
        · obtain ⟨_, _, he, _⟩ := hall2 (.TypeLike m) (by rw [hm]; simp)
          cases he
        · exact hpw
      refine Or.inr (Or.inr ⟨?_, ?_⟩)
      · intro r hr
        simp only [List.mem_append, List.mem_singleton] at hr
        rcases hr with hr | rfl
        · obtain ⟨node, existing, he, _⟩ := hall2 r hr
          exact ⟨node, existing, he⟩
        · exact ⟨n, parameters, rfl⟩
      · refine List.pairwise_append.mpr ⟨hpw, List.pairwise_singleton _ _, ?_⟩
        intro a ha b hb n₁ p₁ n₂ p₂ h1 h2
        simp only [List.mem_singleton] at hb
        subst hb
        obtain ⟨node, existing, he, hne⟩ := hall2 a ha
        rw [he] at h1
        cases h1
        cases h2
        exact hne
    · rw [if_neg hall]
      exact h

theorem wellFormedRefs_addAll [DecidableEq τ] (o : ASTSymbolOverload τ) (asts : List (AST τ))
    (h : WellFormedRefs o.refs_) : WellFormedRefs (addAll o asts).refs_ := by
  induction asts generalizing o with
  | nil => exact h
  | cons ast asts ih =>
    exact ih (AddSymbolRef o ast).2 (wellFormedRefs_AddSymbolRef o ast h)

/-- C7 (conflict rules). `AddSymbolRef` returns false exactly when the bucket is
non-empty and the new node or an existing reference is variable-like or type-like, or
the new node is a function whose parameter type denoters, in order, are those of a
function of the bucket; then the bucket is unchanged, otherwise the node is appended.
After any sequence of calls on a new bucket the references are a single variable-like
node, a single type-like node, or functions with pairwise distinct signatures. -/
theorem addSymbolRef_conflict [DecidableEq τ] (o : ASTSymbolOverload τ) (ast : AST τ) :
    ((AddSymbolRef o ast).1 = false ↔
      (o.refs_ ≠ [] ∧ (IsVarOrType ast ∨ (∃ r ∈ o.refs_, IsVarOrType r) ∨
        ∃ node parameters other, ast = .FunctionDecl node parameters ∧
          .FunctionDecl other parameters ∈ o.refs_))) ∧
    ((AddSymbolRef o ast).2
      = if (AddSymbolRef o ast).1 = true then { o with refs_ := o.refs_ ++ [ast] } else o) ∧
    (∀ (ident : String) (asts : List (AST τ)),
      WellFormedRefs (addAll (new ident) asts).refs_) := by
  refine ⟨?_, ?_, ?_⟩
  · cases ast with
    | VarLike n =>
      rw [AddSymbolRef_varOrType o _ (by simp [IsVarOrType])]
      cases hr : o.refs_ <;> simp [IsVarOrType]
    | TypeLike n =>
      rw [AddSymbolRef_varOrType o _ (by simp [IsVarOrType])]
      cases hr : o.refs_ <;> simp [IsVarOrType]
    | FunctionDecl n parameters =>
      rw [AddSymbolRef_function]
      by_cases hall : o.refs_.all (admitsFunction parameters) = true
      · rw [if_pos hall]
        simp only [Bool.true_eq_false, false_iff, not_and]
        intro _ hcon
        have hall2 := List.all_eq_true.mp hall
        rcases hcon with hv | ⟨r, hr, hv⟩ | ⟨node, ps, other, he, hmem⟩
        · simp [IsVarOrType] at hv
        · have h1 := hall2 r hr
          have h2 := (admitsFunction_eq_false parameters r).mpr (Or.inl hv)
          rw [h1] at h2
          cases h2
        · cases he
          have h1 := hall2 _ hmem
          have h2 := (admitsFunction_eq_false parameters (.FunctionDecl other parameters)).mpr
            (Or.inr ⟨other, rfl⟩)
          rw [h1] at h2
          cases h2
      · rw [if_neg hall]
        simp only [true_iff]
        have : ∃ r ∈ o.refs_, admitsFunction parameters r = false := by
          by_contra hcon
          apply hall
          apply List.all_eq_true.mpr
          intro r hr
          cases hadm : admitsFunction parameters r with
          | true => rfl
          | false => exact absurd ⟨r, hr, hadm⟩ hcon
        obtain ⟨r, hr, hadm⟩ := this
        refine ⟨List.ne_nil_of_mem hr, Or.inr ?_⟩
        rcases (admitsFunction_eq_false parameters r).mp hadm with hv | ⟨other, he⟩
        · exact Or.inl ⟨r, hr, hv⟩
        · exact Or.inr ⟨n, parameters, other, rfl, he ▸ hr⟩
  · cases ast with
    | VarLike n =>
      rw [AddSymbolRef_varOrType o _ (by simp [IsVarOrType])]
      by_cases h : o.refs_.isEmpty = true <;> simp [h]
    | TypeLike n =>
      rw [AddSymbolRef_varOrType o _ (by simp [IsVarOrType])]
      by_cases h : o.refs_.isEmpty = true <;> simp [h]
    | FunctionDecl n parameters =>
      rw [AddSymbolRef_function]
      by_cases h : o.refs_.all (admitsFunction parameters) = true
      · rw [if_pos h]; simp
      · rw [if_neg h]; simp
  · intro ident asts
    exact wellFormedRefs_addAll (new ident) asts (Or.inr (Or.inr ⟨by simp [new], by simp [new]⟩))

/-- Witness of C7: in a bucket holding `f(int)`, a second function with the parameter
list `(int)` is refused and leaves the bucket as it was, `f(float)` is appended, and a
variable is refused. -/
theorem addSymbolRef_conflict_witness :
    (AddSymbolRef { ident_ := "f", refs_ := [.FunctionDecl 0 [DataType.Int]] }
      (.FunctionDecl 1 [DataType.Int])).1 = false ∧
    (AddSymbolRef { ident_ := "f", refs_ := [.FunctionDecl 0 [DataType.Int]] }
      (.FunctionDecl 1 [DataType.Int])).2.refs_ = [.FunctionDecl 0 [DataType.Int]] ∧
    (AddSymbolRef { ident_ := "f", refs_ := [.FunctionDecl 0 [DataType.Int]] }
      (.FunctionDecl 1 [DataType.Float])).2.refs_
      = [.FunctionDecl 0 [DataType.Int], .FunctionDecl 1 [DataType.Float]] ∧
    (AddSymbolRef { ident_ := "f", refs_ := [.FunctionDecl 0 [DataType.Int]] }
      (.VarLike 2)).1 = false :=
  ⟨(addSymbolRef_conflict { ident_ := "f", refs_ := [.FunctionDecl 0 [DataType.Int]] }
      (.FunctionDecl 1 [DataType.Int])).1.mpr
      ⟨by simp, Or.inr (Or.inr ⟨1, [DataType.Int], 0, rfl, by simp⟩)⟩,
    by decide, by decide,
    (addSymbolRef_conflict { ident_ := "f", refs_ := [.FunctionDecl 0 [DataType.Int]] }
      (.VarLike 2)).1.mpr ⟨by simp, Or.inl trivial⟩⟩

end ASTSymbolOverload

/-! ## Properties of the type catalog -/

theorem mem_take_iff_indexOf (family : List Char) (n : Nat) (chr : Char) :
    chr ∈ family.take n ↔ chr ∈ family ∧ family.indexOf chr < n := by
  induction family generalizing n with
  | nil => simp
  | cons a l ih =>
    cases n with
    | zero => simp
    | succ k =>
      by_cases h : chr = a
      · subst h
        simp
      · have h2 : a ≠ chr := fun e => h e.symm
        simp only [List.take_succ_cons, List.mem_cons, h, false_or, ih,
          List.indexOf_cons_ne l h2]
        constructor
        · rintro ⟨h3, h4⟩
          exact ⟨h3, by omega⟩
        · rintro ⟨h3, h4⟩
          exact ⟨h3, by omega⟩

theorem isValidSubscript_iff (family : List Char) (dataType : DataType) (subscript : String) :
    IsValidSubscript family (VectorTypeDim dataType).toNat subscript = true ↔
      ∀ chr ∈ subscript.toList,
        chr ∈ family ∧ (family.indexOf chr : Int) < VectorTypeDim dataType := by
  have hcontains : ∀ (l : List Char) (chr : Char), l.contains chr = true ↔ chr ∈ l := by
    intro l chr
    simp
  simp only [IsValidSubscript, List.all_eq_true, hcontains]
  constructor
  · intro h chr hc
    have := (mem_take_iff_indexOf family _ chr).mp (h chr hc)
    exact ⟨this.1, Int.lt_toNat.mp this.2⟩
  · intro h chr hc
    have := h chr hc
    exact (mem_take_iff_indexOf family _ chr).mpr ⟨this.1, Int.lt_toNat.mpr this.2⟩

theorem subscript_accepted_iff (dataType : DataType) (subscript : String) :
    (subscriptFamilies.any fun family =>
      IsValidSubscript family (VectorTypeDim dataType).toNat subscript) = true ↔
    ∃ family ∈ subscriptFamilies, ∀ chr ∈ subscript.toList,
      chr ∈ family ∧ (family.indexOf chr : Int) < VectorTypeDim dataType := by
  rw [List.any_eq_true]
  constructor
  · rintro ⟨family, hf, h⟩
    exact ⟨family, hf, (isValidSubscript_iff family dataType subscript).mp h⟩
  · rintro ⟨family, hf, h⟩
    exact ⟨family, hf, (isValidSubscript_iff family dataType subscript).mpr h⟩

/-- C8 (swizzle typing). For a scalar or vector data type `t` with base `b` and a
subscript `s`: when `s` has 1 to 4 letters, all of one family among `xyzw`, `rgba`,
`stpq`, each with a component index below the dimension of `t`, the result is
`VectorDataType(b, |s|)`, a type of base `b` and dimension `|s|`; in every other case
the call fails with an invalid-argument error. -/
theorem vectorSubscriptDataType_typing (t : DataType)
    (ht : IsScalarType t = true ∨ IsVectorType t = true) (s : String) :
    (ValidSwizzle t s →
      VectorSubscriptDataType t s = .ok (VectorDataType (BaseDataType t) s.length) ∧
      BaseDataType (VectorDataType (BaseDataType t) s.length) = BaseDataType t ∧
      VectorTypeDim (VectorDataType (BaseDataType t) s.length) = s.length) ∧
    (¬ ValidSwizzle t s → VectorSubscriptDataType t s = .error .invalidArgument) := by
  constructor
  · rintro ⟨h1, h4, hfam⟩
    have hlen : ¬ (s.length < 1 ∨ 4 < s.length) := by omega
    have hany := (subscript_accepted_iff t s).mpr hfam
    refine ⟨?_, ?_, ?_⟩
    · unfold VectorSubscriptDataType
      rw [if_neg hlen, if_pos hany]
    · have hcases : s.length = 1 ∨ s.length = 2 ∨ s.length = 3 ∨ s.length = 4 := by omega
      rcases hcases with h | h | h | h <;> rw [h] <;>
        rcases ht with ht | ht <;> revert ht <;> cases t <;> decide
    · have hcases : s.length = 1 ∨ s.length = 2 ∨ s.length = 3 ∨ s.length = 4 := by omega
      rcases hcases with h | h | h | h <;> rw [h] <;>
        rcases ht with ht | ht <;> revert ht <;> cases t <;> decide
  · intro hnot
    unfold VectorSubscriptDataType
    by_cases hlen : s.length < 1 ∨ 4 < s.length
    · rw [if_pos hlen]
    · rw [if_neg hlen]
      have hany : ¬ (subscriptFamilies.any fun family =>
          IsValidSubscript family (VectorTypeDim t).toNat s) = true := by
        intro hany
        exact hnot ⟨by omega, by omega, (subscript_accepted_iff t s).mp hany⟩
      rw [if_neg hany]

/-- Witness of C8: on `Float4`, `xyz` gives `Float3` and `x` gives `Float`, `xr` and
`xyzwx` fail; on `Float2`, `z` fails. -/
theorem vectorSubscriptDataType_typing_witness :
    VectorSubscriptDataType .Float4 "xyz" = .ok .Float3 ∧
    VectorSubscriptDataType .Float4 "x" = .ok .Float ∧
    VectorSubscriptDataType .Float4 "xr" = .error .invalidArgument ∧
    VectorSubscriptDataType .Float4 "xyzwx" = .error .invalidArgument ∧
    VectorSubscriptDataType .Float2 "z" = .error .invalidArgument :=
  ⟨((vectorSubscriptDataType_typing .Float4 (Or.inr rfl) "xyz").1 (by decide)).1,
    ((vectorSubscriptDataType_typing .Float4 (Or.inr rfl) "x").1 (by decide)).1,
    (vectorSubscriptDataType_typing .Float4 (Or.inr rfl) "xr").2 (by decide),
    (vectorSubscriptDataType_typing .Float4 (Or.inr rfl) "xyzwx").2 (by decide),
    (vectorSubscriptDataType_typing .Float2 (Or.inr rfl) "z").2 (by decide)⟩

theorem stringToAssignOp_toString (v : AssignOp) (hv : v ≠ .Undefined) :
    StringToAssignOp (AssignOpToString v) = .ok v := by
  cases v <;> first | exact absurd rfl hv | rfl

theorem stringToBinaryOp_toString (v : BinaryOp) (hv : v ≠ .Undefined) :
    StringToBinaryOp (BinaryOpToString v) = .ok v := by
  cases v <;> first | exact absurd rfl hv | rfl

theorem stringToUnaryOp_toString (v : UnaryOp) (hv : v ≠ .Undefined) :
    StringToUnaryOp (UnaryOpToString v) = .ok v := by
  cases v <;> first | exact absurd rfl hv | rfl

theorem stringToCtrlTransfer_toString (v : CtrlTransfer) (hv : v ≠ .Undefined) :
    StringToCtrlTransfer (CtrlTransformToString v) = .ok v := by
  cases v <;> first | exact absurd rfl hv | rfl

/-- C9 (operator string round trip). For each of `AssignOp`, `BinaryOp`, `UnaryOp` and
`CtrlTransfer` and every enumerator other than `Undefined`, the conversion to a string
followed by the conversion back yields the enumerator; hence the conversions to a
string are injective on the defined enumerators. -/
theorem operator_string_roundtrip :
    (∀ v : AssignOp, v ≠ .Undefined → StringToAssignOp (AssignOpToString v) = .ok v) ∧
    (∀ v : BinaryOp, v ≠ .Undefined → StringToBinaryOp (BinaryOpToString v) = .ok v) ∧
    (∀ v : UnaryOp, v ≠ .Undefined → StringToUnaryOp (UnaryOpToString v) = .ok v) ∧
    (∀ v : CtrlTransfer, v ≠ .Undefined →
      StringToCtrlTransfer (CtrlTransformToString v) = .ok v) ∧
    (∀ v w : AssignOp, v ≠ .Undefined → w ≠ .Undefined →
      AssignOpToString v = AssignOpToString w → v = w) ∧
    (∀ v w : BinaryOp, v ≠ .Undefined → w ≠ .Undefined →
      BinaryOpToString v = BinaryOpToString w → v = w) ∧
    (∀ v w : UnaryOp, v ≠ .Undefined → w ≠ .Undefined →
      UnaryOpToString v = UnaryOpToString w → v = w) ∧
    (∀ v w : CtrlTransfer, v ≠ .Undefined → w ≠ .Undefined →
      CtrlTransformToString v = CtrlTransformToString w → v = w) := by
  refine ⟨stringToAssignOp_toString, stringToBinaryOp_toString, stringToUnaryOp_toString,
    stringToCtrlTransfer_toString, ?_, ?_, ?_, ?_⟩
  · intro v w hv hw h
    have h1 := stringToAssignOp_toString v hv
    rw [h, stringToAssignOp_toString w hw] at h1
    exact (Except.ok.inj h1).symm
  · intro v w hv hw h
    have h1 := stringToBinaryOp_toString v hv
    rw [h, stringToBinaryOp_toString w hw] at h1
    exact (Except.ok.inj h1).symm
  · intro v w hv hw h
    have h1 := stringToUnaryOp_toString v hv
    rw [h, stringToUnaryOp_toString w hw] at h1
    exact (Except.ok.inj h1).symm
  · intro v w hv hw h
    have h1 := stringToCtrlTransfer_toString v hv
    rw [h, stringToCtrlTransfer_toString w hw] at h1
    exact (Except.ok.inj h1).symm

/-- Witness of C9: `<<=`, `>=`, `--` and `discard` are read back as the operators they
were written from. -/
theorem operator_string_roundtrip_witness :
    StringToAssignOp (AssignOpToString .LShift) = .ok .LShift ∧
    StringToBinaryOp (BinaryOpToString .GreaterEqual) = .ok .GreaterEqual ∧
    StringToUnaryOp (UnaryOpToString .Dec) = .ok .Dec ∧
    StringToCtrlTransfer (CtrlTransformToString .Discard) = .ok .Discard :=
  ⟨operator_string_roundtrip.1 .LShift (by decide),
    operator_string_roundtrip.2.1 .GreaterEqual (by decide),
    operator_string_roundtrip.2.2.1 .Dec (by decide),
    operator_string_roundtrip.2.2.2.1 .Discard (by decide)⟩

/-- C10 (vector type construction round trip). For every scalar type `s` among `Bool`,
`Int`, `UInt`, `Half`, `Float`, `Double` and every `n` from 1 to 4, the base type of
`VectorDataType(s, n)` is `s` and its vector dimension is `n`; `VectorDataType(s, 1)`
is `s` itself. -/
theorem vectorDataType_roundtrip (s : DataType) (n : Int)
    (hs : s ∈ [DataType.Bool, .Int, .UInt, .Half, .Float, .Double])
    (hn : n ∈ [(1 : Int), 2, 3, 4]) :
    BaseDataType (VectorDataType s n) = s ∧
    VectorTypeDim (VectorDataType s n) = n ∧
    VectorDataType s 1 = s := by
  simp only [List.mem_cons, List.mem_singleton, List.mem_nil_iff, or_false] at hs hn
  rcases hs with rfl | rfl | rfl | rfl | rfl | rfl <;>
    rcases hn with rfl | rfl | rfl | rfl <;> decide

/-- Witness of C10: `VectorDataType(Float, 3)` is `Float3`, of base `Float` and
dimension 3. -/
theorem vectorDataType_roundtrip_witness :
    VectorDataType .Float 3 = .Float3 ∧
    BaseDataType (VectorDataType .Float 3) = .Float ∧
    VectorTypeDim (VectorDataType .Float 3) = 3 :=
  ⟨by decide,
    (vectorDataType_roundtrip .Float 3 (by decide) (by decide)).1,
    (vectorDataType_roundtrip .Float 3 (by decide) (by decide)).2.1⟩

/-- C11 (classification is a partition). For every data type at most one of
`IsScalarType`, `IsVectorType`, `IsMatrixType` holds, and exactly one holds if and only
if the type is neither `Undefined` nor `String`. -/
theorem dataType_classification (t : DataType) :
    (IsScalarType t).toNat + (IsVectorType t).toNat + (IsMatrixType t).toNat ≤ 1 ∧
    ((IsScalarType t).toNat + (IsVectorType t).toNat + (IsMatrixType t).toNat = 1 ↔
      (t ≠ .Undefined ∧ t ≠ .String)) ∧
    ¬ (IsScalarType t = true ∧ IsVectorType t = true) ∧
    ¬ (IsScalarType t = true ∧ IsMatrixType t = true) ∧
    ¬ (IsVectorType t = true ∧ IsMatrixType t = true) := by
  cases t <;> decide

/-- Witness of C11: `Float3` is a vector type only, `String` is of no class. -/
theorem dataType_classification_witness :
    (IsScalarType .Float3).toNat + (IsVectorType .Float3).toNat
      + (IsMatrixType .Float3).toNat = 1 ∧
    (IsScalarType .String).toNat + (IsVectorType .String).toNat
      + (IsMatrixType .String).toNat = 0 :=
  ⟨(dataType_classification .Float3).2.1.mpr ⟨by decide, by decide⟩, by decide⟩

/-! ## Further properties of the symbol table -/

namespace SymbolTable

variable {α : Type}

theorem Register_empty_ident (t : SymbolTable α) (p : Option α) (cb : OnOverrideProc α)
    (hne : t.scopeStack_ ≠ []) :
    Register t "" p cb = { table := t, error := none, calls := [] } := by
  have h1 : ¬ t.scopeStack_.isEmpty = true := fun e => hne (List.isEmpty_iff.mp e)
  unfold Register
  rw [if_neg h1, if_pos rfl]

theorem Register_table_empty_ident (t : SymbolTable α) (p : Option α)
    (cb : OnOverrideProc α) : (Register t "" p cb).table = t := by
  unfold Register
  by_cases h1 : t.scopeStack_.isEmpty = true
  · rw [if_pos h1]
  · rw [if_neg h1, if_pos rfl]

theorem ScopeLevel_Register (t : SymbolTable α) (ident : String) (p : Option α)
    (cb : OnOverrideProc α) : ScopeLevel (Register t ident p cb).table = ScopeLevel t := by
  rcases Register_table_cases t ident p cb with e | ⟨entry, below, _, _, _, e⟩ | ⟨hne, e⟩
  · rw [e]
  · rw [e]; rfl
  · rw [e]
    cases hs : t.scopeStack_ with
    | nil => exact absurd hs hne
    | cons top rest => simp [ScopeLevel, registerNew, hs]

theorem symTable_Register_of_ne (t : SymbolTable α) (a b : String) (hab : a ≠ b)
    (p : Option α) (cb : OnOverrideProc α) :
    (Register t a p cb).table.symTable_ b = t.symTable_ b := by
  have hba : b ≠ a := fun e => hab e.symm
  rcases Register_table_cases t a p cb with e | ⟨entry, below, _, _, _, e⟩ | ⟨_, e⟩
  · rw [e]
  · rw [e]; simp [overrideTop, Function.update_noteq hba]
  · rw [e]; simp [registerNew, Function.update_noteq hba]

/-- The empty identifier never gets an entry. -/
theorem symTable_empty_ident_step (t : SymbolTable α) (op : Op α)
    (h : t.symTable_ "" = none) : (step t op).symTable_ "" = none := by
  cases op with
  | openScope => exact h
  | closeScope =>
    cases hs : t.scopeStack_ with
    | nil => simp only [step]; rw [CloseScope_nil t hs]; exact h
    | cons top rest =>
      simp only [step]
      rw [CloseScope_cons t top rest hs]
      simp only [foldl_closeIdent_apply, h, popN_none]
  | register ident symbol overrideProc =>
    simp only [step]
    by_cases hid : ident = ""
    · subst hid
      rw [Register_table_empty_ident]
      exact h
    · rw [symTable_Register_of_ne t ident "" hid]
      exact h

theorem symTable_empty_ident_of_reachable (t : SymbolTable α) (h : Reachable t) :
    t.symTable_ "" = none := by
  induction h with
  | new => rfl
  | step t op _ ih => exact symTable_empty_ident_step t op ih

/-- C15 (empty identifier). With a scope open, `Register("", payload, cb)` does not
fail, does not invoke the callback and leaves the table as it was, so that every later
call sequence has the effect it has without it; in a reachable table `Fetch("")` stays
absent, also after any later calls. -/
theorem register_empty_ident (t : SymbolTable α) (hopen : 1 ≤ ScopeLevel t) (p : Option α)
    (cb : OnOverrideProc α) :
    (Register t "" p cb).error = none ∧
    (Register t "" p cb).calls = [] ∧
    (Register t "" p cb).table = t ∧
    ScopeLevel (Register t "" p cb).table = ScopeLevel t ∧
    (∀ ident, Fetch (Register t "" p cb).table ident = Fetch t ident) ∧
    (∀ ops : List (Op α), run ops (Register t "" p cb).table = run ops t) ∧
    (Reachable t → ∀ ops : List (Op α),
      Fetch (run ops (Register t "" p cb).table) "" = none) := by
  have hreg := Register_empty_ident t p cb (scopeStack_ne_nil t hopen)
  rw [hreg]
  refine ⟨rfl, rfl, rfl, rfl, fun _ => rfl, fun _ => rfl, ?_⟩
  intro ht ops
  have := symTable_empty_ident_of_reachable _ (reachable_run ops t ht)
  simp [Fetch, this]

/-- Witness of C15: the empty identifier is registered in a new table holding `x`. -/
theorem register_empty_ident_witness :
    (Register (Register (new : SymbolTable Nat) "x" (some 1) none).table "" (some 2)
      (some fun _ => true)).error = none ∧
    Fetch (Register (Register (new : SymbolTable Nat) "x" (some 1) none).table "" (some 2)
      (some fun _ => true)).table "x" = some 1 ∧
    Fetch (CloseScope (Register (Register (new : SymbolTable Nat) "x" (some 1) none).table ""
      (some 2) (some fun _ => true)).table) "" = none :=
  have h := register_empty_ident (Register (new : SymbolTable Nat) "x" (some 1) none).table
    (by decide) (some 2) (some fun _ => true)
  ⟨h.1, (h.2.2.2.2.1 "x").trans (by decide),
    h.2.2.2.2.2.2 (Reachable.step _ (Op.register "x" (some 1) none) Reachable.new)
      [Op.closeScope]⟩

/-- C16 (closing without a scope). In a table with `ScopeLevel() == 0`, `CloseScope()`
(which has no failing path) leaves the table as it was: `ScopeLevel()` stays 0 and
`Fetch` is unchanged for every identifier. -/
theorem closeScope_without_scope (t : SymbolTable α) (h : ScopeLevel t = 0) :
    CloseScope t = t ∧ ScopeLevel (CloseScope t) = 0 ∧
    ∀ ident, Fetch (CloseScope t) ident = Fetch t ident := by
  have hs : t.scopeStack_ = [] := List.length_eq_zero.mp h
  rw [CloseScope_nil t hs]
  exact ⟨rfl, h, fun _ => rfl⟩

/-- Witness of C16: the global scope of a new table is closed twice. -/
theorem closeScope_without_scope_witness :
    ScopeLevel (CloseScope (new : SymbolTable Nat)) = 0 ∧
    ScopeLevel (CloseScope (CloseScope (new : SymbolTable Nat))) = 0 :=
  ⟨by decide, (closeScope_without_scope (CloseScope (new : SymbolTable Nat)) (by decide)).2.1⟩

/-- C17 (depth counting). A new table has `ScopeLevel() == 1` and `Fetch` finds nothing;
`OpenScope()` increases `ScopeLevel()` by exactly 1; `CloseScope()` decreases it by
exactly 1 when it is positive; `Register`, whether it succeeds, ignores the identifier
or fails, does not change it (`Fetch` is a function of the table and changes nothing). -/
theorem scopeLevel_counting :
    ScopeLevel (new : SymbolTable α) = 1 ∧
    (∀ ident, Fetch (new : SymbolTable α) ident = none) ∧
    (∀ t : SymbolTable α, ScopeLevel (OpenScope t) = ScopeLevel t + 1) ∧
    (∀ t : SymbolTable α, 0 < ScopeLevel t → ScopeLevel (CloseScope t) + 1 = ScopeLevel t) ∧
    (∀ (t : SymbolTable α) (ident : String) (p : Option α) (cb : OnOverrideProc α),
      ScopeLevel (Register t ident p cb).table = ScopeLevel t) := by
  refine ⟨rfl, fun _ => rfl, fun _ => rfl, ?_, ScopeLevel_Register⟩
  intro t ht
  cases hs : t.scopeStack_ with
  | nil => simp [ScopeLevel, hs] at ht
  | cons top rest =>
    rw [CloseScope_cons t top rest hs]
    simp [ScopeLevel, hs]

/-- Witness of C17: the depth after open, register, close and close again on a new
table. -/
theorem scopeLevel_counting_witness :
    ScopeLevel (OpenScope (new : SymbolTable Nat)) = 2 ∧
    ScopeLevel (CloseScope (OpenScope (new : SymbolTable Nat))) + 1 = 2 ∧
    ScopeLevel (Register (new : SymbolTable Nat) "x" (some 1) none).table = 1 :=
  ⟨(scopeLevel_counting.2.2.1 (new : SymbolTable Nat)).trans (by decide),
    (scopeLevel_counting.2.2.2.1 (OpenScope (new : SymbolTable Nat)) (by decide)).trans
      (by decide),
    (scopeLevel_counting.2.2.2.2 (new : SymbolTable Nat) "x" (some 1) none).trans (by decide)⟩

/-- C18 (atomicity of a failing `Register`). Whenever `Register` fails, the table is
exactly the table before the call, so `ScopeLevel()`, every `Fetch` and the effect of
every later call sequence are unaffected; and it fails only when no scope is open, or
when the top binding of the (non-empty) identifier is non-null and of the current scope
level and the callback is omitted or refuses the override. -/
theorem register_failure_atomic (t : SymbolTable α) (ident : String) (p : Option α)
    (cb : OnOverrideProc α) (hfail : (Register t ident p cb).error ≠ none) :
    (Register t ident p cb).table = t ∧
    ScopeLevel (Register t ident p cb).table = ScopeLevel t ∧
    (∀ x, Fetch (Register t ident p cb).table x = Fetch t x) ∧
    (∀ ops : List (Op α), run ops (Register t ident p cb).table = run ops t) ∧
    (ScopeLevel t = 0 ∨
      (ident ≠ "" ∧ ∃ entry below, t.symTable_ ident = some (entry :: below) ∧
        entry.symbol ≠ none ∧ entry.scopeLevel = ScopeLevel t ∧
        (cb = none ∨ ∃ proc, cb = some proc ∧ proc entry.symbol = false))) := by
  have key : (Register t ident p cb).table = t ∧
      (ScopeLevel t = 0 ∨
        (ident ≠ "" ∧ ∃ entry below, t.symTable_ ident = some (entry :: below) ∧
          entry.symbol ≠ none ∧ entry.scopeLevel = ScopeLevel t ∧
          (cb = none ∨ ∃ proc, cb = some proc ∧ proc entry.symbol = false))) := by
    by_cases h1 : t.scopeStack_ = []
    · constructor
      · unfold Register
        simp [h1]
      · left
        simp [ScopeLevel, h1]
    · by_cases hid : ident = ""
      · subst hid
        rw [Register_empty_ident t p cb h1] at hfail
        exact absurd rfl hfail
      · by_cases hfree : ∀ entry below, t.symTable_ ident = some (entry :: below) →
            (entry.symbol.isSome && entry.scopeLevel == ScopeLevel t) = false
        · rw [Register_eq_registerNew t ident p cb h1 hid hfree] at hfail
          exact absurd rfl hfail
        · simp only [not_forall] at hfree
          obtain ⟨entry, below, hm, hc⟩ := hfree
          have hc : (entry.symbol.isSome && entry.scopeLevel == ScopeLevel t) = true := by
            simpa using hc
          have hc2 := hc
          simp only [Bool.and_eq_true, beq_iff_eq, Option.isSome_iff_ne_none] at hc2
          have hreg := Register_eq_conflict t ident p cb h1 hid entry below hm hc
          cases cb with
          | none =>
            rw [hreg]
            exact ⟨rfl, Or.inr ⟨hid, entry, below, hm, hc2.1, hc2.2, Or.inl rfl⟩⟩
          | some proc =>
            by_cases hp : proc entry.symbol = true
            · simp only [hp, if_true] at hreg
              rw [hreg] at hfail
              exact absurd rfl hfail
            · simp only [hp] at hreg
              rw [hreg]
              exact ⟨rfl, Or.inr ⟨hid, entry, below, hm, hc2.1, hc2.2,
                Or.inr ⟨proc, rfl, by simpa using hp⟩⟩⟩
  rw [key.1]
  exact ⟨rfl, rfl, fun _ => rfl, fun _ => rfl, key.2⟩

/-- Witness of C18: `x` is registered a second time in the global scope, without
callback. -/
theorem register_failure_atomic_witness :
    (Register (Register (new : SymbolTable Nat) "x" (some 1) none).table "x" (some 2)
      none).error ≠ none ∧
    Fetch (Register (Register (new : SymbolTable Nat) "x" (some 1) none).table "x" (some 2)
      none).table "x" = some 1 :=
  ⟨by decide,
    ((register_failure_atomic (Register (new : SymbolTable Nat) "x" (some 1) none).table "x"
      (some 2) none (by decide)).2.2.1 "x").trans (by decide)⟩

/-- C19 (frame of `Register` and `OpenScope`). For distinct identifiers `a` and `b`,
`Register(a, ...)`, whether it adds, shadows, overrides or fails, leaves `Fetch(b)`
(and the bindings of `b`) unchanged; `OpenScope()` leaves `Fetch(x)` unchanged for
every identifier `x`. -/
theorem register_frame (t : SymbolTable α) (a b : String) (hab : a ≠ b) (p : Option α)
    (cb : OnOverrideProc α) :
    Fetch (Register t a p cb).table b = Fetch t b ∧
    stackOf (Register t a p cb).table b = stackOf t b ∧
    (∀ x, Fetch (OpenScope t) x = Fetch t x) := by
  have h := symTable_Register_of_ne t a b hab p cb
  refine ⟨?_, ?_, fun _ => rfl⟩
  · simp only [Fetch, h]
  · simp only [stackOf, h]

/-- Witness of C19: with `y` bound, `x` is added and then registered again in vain;
`Fetch("y")` stays. -/
theorem register_frame_witness :
    Fetch (Register (Register (new : SymbolTable Nat) "y" (some 5) none).table "x" (some 1)
      none).table "y" = some 5 ∧
    Fetch (Register (Register (Register (new : SymbolTable Nat) "y" (some 5) none).table "x"
      (some 1) none).table "x" (some 2) none).table "y" = some 5 :=
  ⟨((register_frame (Register (new : SymbolTable Nat) "y" (some 5) none).table "x" "y"
      (by decide) (some 1) none).1).trans (by decide),
    ((register_frame (Register (Register (new : SymbolTable Nat) "y" (some 5) none).table "x"
      (some 1) none).table "x" "y" (by decide) (some 2) none).1).trans (by decide)⟩

theorem levelsOf_pairwise (ss : List (List String)) (ident : String) :
    (levelsOf ss ident).Pairwise (· ≥ ·) := by
  induction ss with
  | nil => simp [levelsOf]
  | cons names rest ih =>
    simp only [levelsOf]
    refine List.pairwise_append.mpr ⟨?_, ih, ?_⟩
    · refine List.pairwise_replicate.mpr ?_
      exact Or.inr (le_refl _)
    · intro a ha b hb
      have h1 := (List.mem_replicate.mp ha).2
      have h2 := (levelsOf_le rest ident b hb).2
      show a ≥ b
      omega

theorem namesOfLevel_top (top : List String) (rest : List (List String)) :
    namesOfLevel (top :: rest) (rest.length + 1) = top := by
  simp [namesOfLevel, List.getElem?_append_right]

theorem namesOfLevel_below (top : List String) (rest : List (List String)) (level : Nat)
    (h1 : 1 ≤ level) (h2 : level ≤ rest.length) :
    namesOfLevel (top :: rest) level = namesOfLevel rest level := by
  have : level - 1 < rest.reverse.length := by simp; omega
  simp [namesOfLevel, List.getElem?_append_left this]

theorem levelsOf_count (ss : List (List String)) (ident : String) (level : Nat)
    (h1 : 1 ≤ level) (h2 : level ≤ ss.length) :
    (levelsOf ss ident).count level = (namesOfLevel ss level).count ident := by
  induction ss with
  | nil => simp at h2; omega
  | cons names rest ih =>
    simp only [levelsOf, List.count_append]
    by_cases hl : level = rest.length + 1
    · subst hl
      have h0 : (levelsOf rest ident).count (rest.length + 1) = 0 := by
        apply List.count_eq_zero.mpr
        intro hmem
        have := (levelsOf_le rest ident _ hmem).2
        omega
      rw [h0, namesOfLevel_top]
      simp
    · have h3 : level ≤ rest.length := by simp at h2; omega
      rw [namesOfLevel_below names rest level h1 h3, ← ih h3]
      have : (List.replicate (List.count ident names) (rest.length + 1)).count level = 0 := by
        apply List.count_eq_zero.mpr
        intro hmem
        exact hl (List.mem_replicate.mp hmem).2
      omega

theorem stackOf_CloseScope (t : SymbolTable α) (ident : String) :
    stackOf (CloseScope t) ident
      = (stackOf t ident).drop ((namesOfLevel t.scopeStack_ (ScopeLevel t)).count ident) := by
  cases hs : t.scopeStack_ with
  | nil =>
    rw [CloseScope_nil t hs]
    simp [namesOfLevel, ScopeLevel, hs]
  | cons top rest =>
    rw [CloseScope_cons t top rest hs]
    have : ScopeLevel t = rest.length + 1 := by simp [ScopeLevel, hs]
    rw [this, namesOfLevel_top]
    simp only [stackOf, foldl_closeIdent_apply, getD_popN]

/-- C20 (representation invariant). In every reachable table: (1) no entry holds an
empty binding stack; (2) the scope levels of each binding stack are non-decreasing from
bottom to top (non-increasing from the top, which is the head of the list) and lie
between 1 and `ScopeLevel()`; (3) for every identifier and open level, the number of
its bindings of that level is the number of occurrences of the identifier in the name
list of that scope. Hence `CloseScope()` pops, for each identifier, as many bindings as
the closed scope names it, all of them of the level being closed, and afterwards no
binding has a level above `ScopeLevel()`. -/
theorem representation_invariant (t : SymbolTable α) (ht : Reachable t) :
    (∀ ident, t.symTable_ ident ≠ some []) ∧
    (∀ ident, ((stackOf t ident).map Symbol.scopeLevel).Pairwise (· ≥ ·) ∧
      ∀ b ∈ stackOf t ident, 1 ≤ b.scopeLevel ∧ b.scopeLevel ≤ ScopeLevel t) ∧
    (∀ ident level, 1 ≤ level → level ≤ ScopeLevel t →
      ((stackOf t ident).map Symbol.scopeLevel).count level
        = (namesOfLevel t.scopeStack_ level).count ident) ∧
    (∀ ident,
      stackOf (CloseScope t) ident
        = (stackOf t ident).drop ((namesOfLevel t.scopeStack_ (ScopeLevel t)).count ident) ∧
      ∀ b ∈ (stackOf t ident).take ((namesOfLevel t.scopeStack_ (ScopeLevel t)).count ident),
        b.scopeLevel = ScopeLevel t) ∧
    (∀ ident, ∀ b ∈ stackOf (CloseScope t) ident,
      b.scopeLevel ≤ ScopeLevel (CloseScope t)) := by
  have hinv := inv_of_reachable t ht
  have hbound : ∀ (u : SymbolTable α), Inv u → ∀ ident, ∀ b ∈ stackOf u ident,
      1 ≤ b.scopeLevel ∧ b.scopeLevel ≤ ScopeLevel u := by
    intro u hu ident b hb
    have hl := hu.levels ident
    have hmem : b.scopeLevel ∈ levelsOf u.scopeStack_ ident := by
      rw [← hl]
      exact List.mem_map_of_mem _ hb
    exact levelsOf_le _ _ _ hmem
  refine ⟨hinv.noEmpty, ?_, ?_, ?_, ?_⟩
  · intro ident
    refine ⟨?_, hbound t hinv ident⟩
    rw [hinv.levels ident]
    exact levelsOf_pairwise _ _
  · intro ident level h1 h2
    rw [hinv.levels ident]
    exact levelsOf_count _ _ _ h1 h2
  · intro ident
    refine ⟨stackOf_CloseScope t ident, ?_⟩
    intro b hb
    have hl := hinv.levels ident
    cases hs : t.scopeStack_ with
    | nil =>
      rw [hs] at hb
      simp [namesOfLevel] at hb
    | cons top rest =>
      have hlev : ScopeLevel t = rest.length + 1 := by simp [ScopeLevel, hs]
      rw [hs, hlev, namesOfLevel_top] at hb
      rw [hs] at hl
      simp only [levelsOf] at hl
      have hmem : b.scopeLevel ∈ ((stackOf t ident).map Symbol.scopeLevel).take
          (top.count ident) := by
        rw [← List.map_take]
        exact List.mem_map_of_mem _ hb
      rw [hl, List.take_left' (by simp)] at hmem
      rw [hlev]
      exact (List.mem_replicate.mp hmem).2
  · intro ident b hb
    exact (hbound (CloseScope t) (inv_CloseScope t hinv) ident b hb).2

/-- Witness of C20: `x` bound in the global scope and twice, once with a null payload,
in a nested scope. -/
theorem representation_invariant_witness :
    ((stackOf (run [Op.register "x" (some 1) none, Op.openScope, Op.register "x" none none,
      Op.register "x" (some 2) none] (new : SymbolTable Nat)) "x").map
        Symbol.scopeLevel).count 2
      = (namesOfLevel (run [Op.register "x" (some 1) none, Op.openScope,
          Op.register "x" none none, Op.register "x" (some 2) none]
          (new : SymbolTable Nat)).scopeStack_ 2).count "x" ∧
    (stackOf (run [Op.register "x" (some 1) none, Op.openScope, Op.register "x" none none,
      Op.register "x" (some 2) none] (new : SymbolTable Nat)) "x").map Symbol.scopeLevel
      = [2, 2, 1] :=
  ⟨(representation_invariant _ (reachable_run _ _ Reachable.new)).2.2.1 "x" 2 (by decide)
      (by decide),
    by decide⟩

end SymbolTable

/-! ## Properties of the code writer -/

namespace CodeWriter

theorem withStream_self (w : CodeWriter) : withStream w w.stream = w := by
  cases w
  rfl

theorem Write_eq (w : CodeWriter) (text : String) :
    Write w text = withStream w (w.stream ++ text) := rfl

theorem BeginLine_eq (w : CodeWriter) :
    BeginLine w
      = withStream w (w.stream ++ (if (CurrentOptions w).enableTabs then w.indent_ else "")) := by
  unfold BeginLine
  by_cases h1 : (CurrentOptions w).enableTabs = true
  · rw [if_pos h1, if_pos h1]
    rfl
  · rw [if_neg h1, if_neg h1, String.append_empty, withStream_self]

theorem EndLine_eq (w : CodeWriter) :
    EndLine w
      = withStream w (w.stream ++ (if (CurrentOptions w).enableNewLine then "\n" else "")) := by
  unfold EndLine
  by_cases h1 : (CurrentOptions w).enableNewLine = true
  · rw [if_pos h1, if_pos h1]
    rfl
  · rw [if_neg h1, if_neg h1, String.append_empty, withStream_self]

theorem WriteLine_eq (w : CodeWriter) (text : String) :
    WriteLine w text
      = withStream w (w.stream ++ ((if (CurrentOptions w).enableTabs then w.indent_ else "")
          ++ text ++ (if (CurrentOptions w).enableNewLine then "\n" else ""))) := by
  unfold WriteLine
  rw [BeginLine_eq, Write_eq, EndLine_eq]
  simp only [withStream, CurrentOptions, String.append_assoc]

theorem stream_WriteLine (w : CodeWriter) (text : String) :
    (WriteLine w text).stream
      = w.stream ++ ((if (CurrentOptions w).enableTabs then w.indent_ else "") ++ text
          ++ (if (CurrentOptions w).enableNewLine then "\n" else "")) := by
  rw [WriteLine_eq]
  rfl

theorem WriteLine_frame (w : CodeWriter) (text : String) :
    (WriteLine w text).indent_ = w.indent_ ∧
    (WriteLine w text).indentTab_ = w.indentTab_ ∧
    (WriteLine w text).optionsStack_ = w.optionsStack_ := by
  rw [WriteLine_eq]
  exact ⟨rfl, rfl, rfl⟩

theorem PopIndent_repeatString (w : CodeWriter) (d : Nat)
    (h : w.indent_ = repeatString w.indentTab_ (d + 1)) (hne : w.indent_ ≠ "") :
    PopIndent w = some
      { stream := w.stream, indentTab_ := w.indentTab_,
        indent_ := repeatString w.indentTab_ d, optionsStack_ := w.optionsStack_ } := by
  unfold PopIndent
  rw [if_neg hne]
  have hdata : w.indent_.data = (repeatString w.indentTab_ d).data ++ w.indentTab_.data := by
    rw [h]
    rfl
  have htake : w.indent_.data.take (w.indent_.data.length - w.indentTab_.data.length)
      = (repeatString w.indentTab_ d).data := by
    rw [hdata]
    exact List.take_left' (by simp)
  rw [htake]

/-- After calls that all succeeded, the current indent is the indent string repeated as
often as `PushIndent` was called more often than `PopIndent`. -/
theorem run_indent (calls : List Call) (w r : CodeWriter) (d : Nat)
    (h : w.indent_ = repeatString w.indentTab_ d) (hrun : run calls w = some r) :
    r.indentTab_ = w.indentTab_ ∧
    calls.count .popIndent ≤ d + calls.count .pushIndent ∧
    r.indent_
      = repeatString w.indentTab_ (d + calls.count .pushIndent - calls.count .popIndent) := by
  induction calls generalizing w d with
  | nil =>
    simp only [run, Option.some.injEq] at hrun
    subst hrun
    simpa using h
  | cons call calls ih =>
    simp only [run] at hrun
    cases hstep : step w call with
    | none => rw [hstep] at hrun; simp at hrun
    | some next =>
      rw [hstep] at hrun
      cases call with
      | pushIndent =>
        simp only [step, Option.some.injEq] at hstep
        subst hstep
        have := ih (PushIndent w) (d + 1) (by simp [PushIndent, h, repeatString]) hrun
        simp only [PushIndent] at this
        have hc1 : (Call.pushIndent :: calls).count .popIndent = calls.count .popIndent := by
          simp [List.count_cons]
        have hc2 : (Call.pushIndent :: calls).count .pushIndent
            = calls.count .pushIndent + 1 := by
          simp [List.count_cons]
        rw [hc1, hc2]
        refine ⟨this.1, by omega, ?_⟩
        rw [this.2.2]
        congr 1
        omega
      | popIndent =>
        simp only [step] at hstep
        have hne : w.indent_ ≠ "" := by
          intro e
          simp [PopIndent, e] at hstep
        cases d with
        | zero => exact absurd h hne
        | succ d' =>
          rw [PopIndent_repeatString w d' h hne] at hstep
          simp only [Option.some.injEq] at hstep
          subst hstep
          have := ih _ d' rfl hrun
          simp only at this
          have hc1 : (Call.popIndent :: calls).count .popIndent
              = calls.count .popIndent + 1 := by
            simp [List.count_cons]
          have hc2 : (Call.popIndent :: calls).count .pushIndent = calls.count .pushIndent := by
            simp [List.count_cons]
          rw [hc1, hc2]
          refine ⟨this.1, by omega, ?_⟩
          rw [this.2.2]
          congr 1
          omega
      | pushOptions options =>
        simp only [step, Option.some.injEq] at hstep
        subst hstep
        have := ih (PushOptions w options) d h hrun
        simpa [PushOptions] using this
      | popOptions =>
        have hf : next.indent_ = w.indent_ ∧ next.indentTab_ = w.indentTab_ := by
          simp only [step, PopOptions] at hstep
          cases hs : w.optionsStack_ with
          | nil => rw [hs] at hstep; simp at hstep
          | cons top rest =>
            rw [hs] at hstep
            simp only [Option.some.injEq] at hstep
            subst hstep
            exact ⟨rfl, rfl⟩
        have := ih next d (by rw [hf.1, hf.2]; exact h) hrun
        rw [hf.2] at this
        simpa [List.count_cons] using this
      | beginLine =>
        simp only [step, Option.some.injEq] at hstep
        subst hstep
        have hf : (BeginLine w).indent_ = w.indent_ ∧ (BeginLine w).indentTab_ = w.indentTab_ := by
          rw [BeginLine_eq]
          exact ⟨rfl, rfl⟩
        have := ih (BeginLine w) d (by rw [hf.1, hf.2]; exact h) hrun
        rw [hf.2] at this
        simpa using this
      | endLine =>
        simp only [step, Option.some.injEq] at hstep
        subst hstep
        have hf : (EndLine w).indent_ = w.indent_ ∧ (EndLine w).indentTab_ = w.indentTab_ := by
          rw [EndLine_eq]
          exact ⟨rfl, rfl⟩
        have := ih (EndLine w) d (by rw [hf.1, hf.2]; exact h) hrun
        rw [hf.2] at this
        simpa using this
      | write text =>
        simp only [step, Option.some.injEq] at hstep
        subst hstep
        have := ih (Write w text) d h hrun
        simpa [Write] using this
      | writeLine text =>
        simp only [step, Option.some.injEq] at hstep
        subst hstep
        have hf := WriteLine_frame w text
        have := ih (WriteLine w text) d (by rw [hf.1, hf.2.1]; exact h) hrun
        rw [hf.2.1] at this
        simpa using this

/-- C12 (line output). In the writer state reached from a new writer with indent string
`u` by calls that all succeeded, with `k` more `PushIndent` than `PopIndent` calls,
`WriteLine(text)` appends to the stream exactly `u` repeated `k` times if `enableTabs`
is set in the current options, then `text`, then a new line if `enableNewLine` is set;
it is `BeginLine(); Write(text); EndLine()`. -/
theorem codeWriter_writeLine (u : String) (calls : List Call) (w : CodeWriter)
    (hw : run calls (new u) = some w) (text : String) :
    calls.count .popIndent ≤ calls.count .pushIndent ∧
    (WriteLine w text).stream
      = w.stream ++ ((if (CurrentOptions w).enableTabs then
            repeatString u (calls.count .pushIndent - calls.count .popIndent) else "")
          ++ text ++ (if (CurrentOptions w).enableNewLine then "\n" else "")) ∧
    WriteLine w text = EndLine (Write (BeginLine w) text) := by
  have h := run_indent calls (new u) w 0 rfl hw
  simp only [Nat.zero_add] at h
  refine ⟨h.2.1, ?_, rfl⟩
  rw [stream_WriteLine, h.2.2]
  rfl

/-- Witness of C12: with the indent string of two spaces, `PushIndent(); PushIndent();
WriteLine("a"); PopIndent(); WriteLine("b")` emits `"    a\n  b\n"`. -/
theorem codeWriter_writeLine_witness :
    (run [.pushIndent, .pushIndent, .writeLine "a", .popIndent, .writeLine "b"]
      (new "  ")).map CodeWriter.stream = some "    a\n  b\n" ∧
    (WriteLine (PushIndent (PushIndent (new "  "))) "a").stream = "    a\n" :=
  ⟨by decide,
    ((codeWriter_writeLine "  " [.pushIndent, .pushIndent] (PushIndent (PushIndent (new "  ")))
      rfl "a").2.1).trans (by decide)⟩

theorem CurrentOptions_withStream (w : CodeWriter) (text : String) :
    CurrentOptions (withStream w text) = CurrentOptions w := rfl

/-- What a call does depends on the text already in the stream only by appending to it. -/
theorem step_withStream (w : CodeWriter) (call : Call) (s : String) :
    step (withStream w (s ++ w.stream)) call
      = (step w call).map fun r => withStream r (s ++ r.stream) := by
  cases call with
  | pushIndent => rfl
  | popIndent =>
    simp only [step, PopIndent, withStream]
    by_cases h : w.indent_ = ""
    · simp [h]
    · simp [h]
  | pushOptions options => rfl
  | popOptions =>
    simp only [step, PopOptions, withStream]
    cases w.optionsStack_ with
    | nil => rfl
    | cons top rest => rfl
  | beginLine =>
    simp only [step, BeginLine_eq, CurrentOptions_withStream, Option.map_some']
    simp [withStream, String.append_assoc]
  | endLine =>
    simp only [step, EndLine_eq, CurrentOptions_withStream, Option.map_some']
    simp [withStream, String.append_assoc]
  | write text =>
    simp only [step, Write_eq, Option.map_some']
    simp [withStream, String.append_assoc]
  | writeLine text =>
    simp only [step, WriteLine_eq, CurrentOptions_withStream, Option.map_some']
    simp [withStream, String.append_assoc]

theorem run_withStream (calls : List Call) (w : CodeWriter) (s : String) :
    run calls (withStream w (s ++ w.stream))
      = (run calls w).map fun r => withStream r (s ++ r.stream) := by
  induction calls generalizing w with
  | nil => rfl
  | cons call calls ih =>
    simp only [run]
    rw [step_withStream]
    cases hstep : step w call with
    | none => rfl
    | some next =>
      simp only [Option.map_some']
      exact ih next

/-- The effect of calls on a writer is their effect on the writer with an empty stream,
with the text of the stream put in front. -/
theorem run_eq_of_empty_stream (calls : List Call) (w : CodeWriter) :
    run calls w
      = (run calls (withStream w "")).map fun r => withStream r (w.stream ++ r.stream) := by
  have h := run_withStream calls (withStream w "") w.stream
  have hw : withStream (withStream w "") (w.stream ++ (withStream w "").stream) = w := by
    cases w
    simp [withStream]
  rw [hw] at h
  exact h

theorem run_output (calls : List Call) (w : CodeWriter)
    (h : calls.all Call.isOutput = true) :
    ∃ r, run calls w = some r ∧ r.indent_ = w.indent_ ∧ r.indentTab_ = w.indentTab_ ∧
      r.optionsStack_ = w.optionsStack_ := by
  induction calls generalizing w with
  | nil => exact ⟨w, rfl, rfl, rfl, rfl⟩
  | cons call calls ih =>
    simp only [List.all_cons, Bool.and_eq_true] at h
    have hstep : ∃ next, step w call = some next ∧ next.indent_ = w.indent_ ∧
        next.indentTab_ = w.indentTab_ ∧ next.optionsStack_ = w.optionsStack_ := by
      cases call with
      | pushIndent => simp [Call.isOutput] at h
      | popIndent => simp [Call.isOutput] at h
      | pushOptions options => simp [Call.isOutput] at h
      | popOptions => simp [Call.isOutput] at h
      | beginLine => exact ⟨_, rfl, by rw [BeginLine_eq]; exact ⟨rfl, rfl, rfl⟩⟩
      | endLine => exact ⟨_, rfl, by rw [EndLine_eq]; exact ⟨rfl, rfl, rfl⟩⟩
      | write text => exact ⟨_, rfl, rfl, rfl, rfl⟩
      | writeLine text => exact ⟨_, rfl, by rw [WriteLine_eq]; exact ⟨rfl, rfl, rfl⟩⟩
    obtain ⟨next, hs, h1, h2, h3⟩ := hstep
    obtain ⟨r, hr, g1, g2, g3⟩ := ih next h.2
    refine ⟨r, ?_, g1.trans h1, g2.trans h2, g3.trans h3⟩
    simp only [run, hs]
    exact hr

/-- C13 (options stack). A new writer has both options true; `PushOptions(o)` makes
`CurrentOptions()` equal `o`; `PushOptions(o)`, then any `Write`, `WriteLine`,
`BeginLine` and `EndLine` calls, then `PopOptions()` succeed and leave the options
stack, `CurrentOptions()` and the current indent as they were before the push, so that
every later call sequence has the effect, and emits the text, it would have had before;
`Write` and `WriteLine` change neither the indent nor the options stack. -/
theorem codeWriter_options_stack :
    (∀ u, CurrentOptions (new u) = { enableNewLine := true, enableTabs := true }) ∧
    (∀ w o, CurrentOptions (PushOptions w o) = o) ∧
    (∀ w o calls, calls.all Call.isOutput = true →
      ∃ w1 w2, run calls (PushOptions w o) = some w1 ∧ PopOptions w1 = some w2 ∧
        CurrentOptions w2 = CurrentOptions w ∧ w2.optionsStack_ = w.optionsStack_ ∧
        w2.indent_ = w.indent_ ∧ w2.indentTab_ = w.indentTab_ ∧
        ∀ later,
          run later w2
            = (run later (withStream w "")).map (fun r => withStream r (w2.stream ++ r.stream)) ∧
          run later w
            = (run later (withStream w "")).map (fun r => withStream r (w.stream ++ r.stream))) ∧
    (∀ w text, (Write w text).indent_ = w.indent_ ∧
      (Write w text).optionsStack_ = w.optionsStack_ ∧
      (WriteLine w text).indent_ = w.indent_ ∧
      (WriteLine w text).optionsStack_ = w.optionsStack_) := by
  refine ⟨fun _ => rfl, fun _ _ => rfl, ?_, ?_⟩
  · intro w o calls hcalls
    obtain ⟨w1, hrun, h1, h2, h3⟩ := run_output calls (PushOptions w o) hcalls
    have hstack : w1.optionsStack_ = o :: w.optionsStack_ := h3
    refine ⟨w1, withStream w w1.stream, hrun, ?_, rfl, rfl, rfl, rfl, ?_⟩
    · unfold PopOptions
      rw [hstack]
      simp only [withStream, Option.some.injEq, CodeWriter.mk.injEq, true_and, and_true]
      exact ⟨h2, h1⟩
    · intro later
      refine ⟨?_, run_eq_of_empty_stream later w⟩
      have := run_eq_of_empty_stream later (withStream w w1.stream)
      exact this
  · intro w text
    have := WriteLine_frame w text
    exact ⟨rfl, rfl, this.1, this.2.2⟩

/-- Witness of C13: options without new lines and tabs are pushed on an indented
writer, a line is written, and the options are popped. -/
theorem codeWriter_options_stack_witness :
    (run [.pushOptions { enableNewLine := false, enableTabs := false }, .writeLine "a",
      .popOptions, .writeLine "b"] (PushIndent (new "  "))).map CodeWriter.stream
      = some "a  b\n" ∧
    CurrentOptions (PushOptions (new "  ") { enableNewLine := false, enableTabs := true })
      = { enableNewLine := false, enableTabs := true } :=
  ⟨by decide,
    codeWriter_options_stack.2.1 (new "  ") { enableNewLine := false, enableTabs := true }⟩

end CodeWriter

/-! ## Properties of the report handler -/

namespace ReportHandler

theorem length_markerFrom (column first last : Nat) (chars : List Char) :
    (markerFrom column first last chars).length = chars.length := by
  induction chars generalizing column with
  | nil => rfl
  | cons chr rest ih => simp [markerFrom, ih]

theorem getElem?_markerFrom (column first last : Nat) (chars : List Char) (i : Nat) :
    (markerFrom column first last chars)[i]?
      = (chars[i]?).map (markerChar (column + i) first last) := by
  induction chars generalizing column i with
  | nil => simp [markerFrom]
  | cons chr rest ih =>
    cases i with
    | zero => simp [markerFrom]
    | succ j =>
      have hcol : column + 1 + j = column + (j + 1) := by omega
      simp only [markerFrom, List.getElem?_cons_succ, ih, hcol]

/-- C14 (report marker). For a source whose row `row` is `line`, and the area of the
columns from `b` to `e` (exclusive, one-based, `b < e`) lying in that line, the report
of `MakeReport` carries the line and a marker of the length of the line, with `^` at
column `b`, `~` at the columns `b+1` to `e-1`, and a space or a tab at every other
column. -/
theorem makeReport_marker (handler : ReportHandler) (decorate : String → String → String)
    (type : Report.Types) (msg : String) (source : SourceCode) (row b e : Nat)
    (line : String) (hline : source.Line row = some line) (hb : 1 ≤ b) (hbe : b < e)
    (he : e ≤ line.length + 1) :
    (MakeReport handler decorate type msg (some source)
      (.range { row := row, column := b } { row := row, column := e })).line_ = line ∧
    (MakeReport handler decorate type msg (some source)
      (.range { row := row, column := b } { row := row, column := e })).marker_.length
      = line.length ∧
    (MakeReport handler decorate type msg (some source)
      (.range { row := row, column := b } { row := row, column := e })).marker_.data[b - 1]?
      = some '^' ∧
    (∀ column, b < column → column < e →
      (MakeReport handler decorate type msg (some source)
        (.range { row := row, column := b }
          { row := row, column := e })).marker_.data[column - 1]? = some '~') ∧
    (∀ column, 1 ≤ column → column ≤ line.length → column < b ∨ e ≤ column →
      (MakeReport handler decorate type msg (some source)
        (.range { row := row, column := b }
          { row := row, column := e })).marker_.data[column - 1]? = some ' ' ∨
      (MakeReport handler decorate type msg (some source)
        (.range { row := row, column := b }
          { row := row, column := e })).marker_.data[column - 1]? = some '\t') := by
  have hrep : MakeReport handler decorate type msg (some source)
      (.range { row := row, column := b } { row := row, column := e })
      = { type_ := type, message_ := decorate handler.reportTypeName_ msg, line_ := line,
          marker_ := lineMarker line b e } := by
    simp [MakeReport, hline]
  rw [hrep]
  have hget : ∀ column, 1 ≤ column → column ≤ line.length →
      ∃ chr, (lineMarker line b e).data[column - 1]? = some (markerChar column b e chr) := by
    intro column h1 h2
    have hlt : column - 1 < line.data.length := by
      have : line.data.length = line.length := rfl
      omega
    refine ⟨line.data[column - 1], ?_⟩
    have hcol : 1 + (column - 1) = column := by omega
    simp only [lineMarker, getElem?_markerFrom, List.getElem?_eq_getElem hlt, Option.map_some',
      hcol]
  refine ⟨rfl, ?_, ?_, ?_, ?_⟩
  · simp only [lineMarker, String.length, length_markerFrom]
  · obtain ⟨chr, hc⟩ := hget b hb (by omega)
    rw [hc]
    simp [markerChar]
  · intro column h1 h2
    obtain ⟨chr, hc⟩ := hget column (by omega) (by omega)
    rw [hc]
    have hne : column ≠ b := by omega
    simp [markerChar, hne, h1, h2]
  · intro column h1 h2 h3
    obtain ⟨chr, hc⟩ := hget column h1 h2
    rw [hc]
    have hne : column ≠ b := by omega
    have hout : ¬ (b < column ∧ column < e) := by omega
    by_cases ht : chr = '\t'
    · right
      simp [markerChar, hne, hout, ht]
    · left
      simp [markerChar, hne, hout, ht]

/-- Witness of C14: for the line `int main() { foo(); }` and the columns 14 to 17 the
marker is 13 spaces, then `^~~`, then 5 spaces, as long as the line. -/
theorem makeReport_marker_witness :
    (MakeReport { reportTypeName_ := "syntax error", hasErrors_ := false }
      (fun category msg => category ++ msg) .Error "unknown"
      (some { lines := ["int main() { foo(); }"] })
      (.range { row := 1, column := 14 } { row := 1, column := 17 })).marker_
      = "             ^~~     " ∧
    (MakeReport { reportTypeName_ := "syntax error", hasErrors_ := false }
      (fun category msg => category ++ msg) .Error "unknown"
      (some { lines := ["int main() { foo(); }"] })
      (.range { row := 1, column := 14 } { row := 1, column := 17 })).marker_.length
      = "int main() { foo(); }".length :=
  ⟨by decide,
    (makeReport_marker { reportTypeName_ := "syntax error", hasErrors_ := false }
      (fun category msg => category ++ msg) .Error "unknown"
      { lines := ["int main() { foo(); }"] } 1 14 17 "int main() { foo(); }"
      (by decide) (by decide) (by decide) (by decide)).2.1⟩

end ReportHandler

end Xsc
